import Mathlib

/-!
# Task service (`main.go`): a shallow embedding and its verified properties

The program is a small HTTP service with three handlers over one SQL table.
The handlers are translated from `main.go`.  The library calls they make
(`time.Parse`, `Time.Format`, `json.Decoder.Decode`, `json.Encoder.Encode`,
`http.Error`, `db.Exec`, `db.Query`, `http.ServeMux`) are embedded as
executable functions that follow the documented behaviour of the Go standard
library:

* a `time.Time` is kept as its civil fields in its own zone plus the zone
  offset in seconds; the `Location` pointer is not represented;
* `time.Parse` with the RFC 3339 layouts is `parseRFC3339` followed, when
  that fails, by the general layout parser, which also accepts an hour of one
  digit, a comma before the fraction, a zone hour of 24 and a zone minute of
  60; `Time.MarshalJSON` refuses a zone hour above 23 (the library as of
  Go 1.20);
* a request body is taken after the JSON scanner: either a syntax error or a
  JSON value;
* a response body is the sequence of writes made to the `ResponseWriter`,
  each one a newline terminated line of text or a newline terminated JSON
  document;
* the driver's failures (a failing `Exec`, a failing `Query`, an iteration
  that stops early with an error) are given to each call as a `Faults`
  record.
-/

namespace time

/-- A `time.Time`: civil date and clock fields in the time's own zone, and
the zone offset in seconds east of UTC. -/
structure Time where
  year : Nat
  month : Nat
  day : Nat
  hour : Nat
  min : Nat
  sec : Nat
  nsec : Nat
  offset : Int
deriving DecidableEq, Repr

/-- The zero `Time{}`: January 1, year 1, 00:00:00 UTC. -/
def Time.zero : Time := ⟨1, 1, 1, 0, 0, 0, 0, 0⟩

instance : Inhabited Time := ⟨Time.zero⟩

/-- The layouts used by the program and by `Time.MarshalJSON`. -/
inductive Layout where
  | RFC3339
  | RFC3339Nano
deriving DecidableEq, Repr

def isLeap (year : Nat) : Bool :=
  year % 4 == 0 && (year % 100 != 0 || year % 400 == 0)

/-- Go `daysIn(m, year)`. -/
def daysIn (month year : Nat) : Nat :=
  if month = 2 then (if isLeap year then 29 else 28)
  else if month = 4 ∨ month = 6 ∨ month = 9 ∨ month = 11 then 30
  else 31

/-- The values a `Time` produced by the program can take: a calendar date
with a four digit year, a clock time, and a whole-minute offset of at most
25 hours (the zone `24:60`, the largest one `time.Parse` accepts). -/
def Time.Valid (t : Time) : Prop :=
  t.year ≤ 9999 ∧ 1 ≤ t.month ∧ t.month ≤ 12 ∧ 1 ≤ t.day ∧ t.day ≤ daysIn t.month t.year ∧
  t.hour ≤ 23 ∧ t.min ≤ 59 ∧ t.sec ≤ 59 ∧ t.nsec ≤ 999999999 ∧
  t.offset % 60 = 0 ∧ -90000 ≤ t.offset ∧ t.offset ≤ 90000

instance (t : Time) : Decidable t.Valid := by unfold Time.Valid; infer_instance

/-- The decimal digit character of `n % 10`. -/
def digitChar (n : Nat) : Char := Char.ofNat (48 + n % 10)

/-- The `w` low-order decimal digits of `x`, most significant first. -/
def lastDigits (x : Nat) : Nat → List Char
  | 0 => []
  | w + 1 => lastDigits (x / 10) w ++ [digitChar x]

/-- Go `appendInt(b, x, width)` for `x ≥ 0`: the decimal digits of `x`, padded
with zeros on the left to at least `width` characters. -/
def appendInt (x width : Nat) : List Char :=
  if x < 10 ^ width then lastDigits x width else Nat.toDigits 10 x

/-- The zone suffix written for the layout element `Z07:00`. -/
def appendZone (offset : Int) : List Char :=
  if offset = 0 then ['Z']
  else
    let zone := Int.tdiv offset 60
    if zone < 0 then
      '-' :: (appendInt (zone.natAbs / 60) 2 ++ ':' :: appendInt (zone.natAbs % 60) 2)
    else
      '+' :: (appendInt (zone.natAbs / 60) 2 ++ ':' :: appendInt (zone.natAbs % 60) 2)

/-- Drop the trailing `'0'` characters of a digit string. -/
def trimZeros (ds : List Char) : List Char :=
  (ds.reverse.dropWhile (fun c => c == '0')).reverse

/-- Go `appendNano` for the layout element `.999999999`: nothing when the
nanoseconds are zero, otherwise the nine digits without trailing zeros. -/
def appendNano (nsec : Nat) : List Char :=
  if nsec = 0 then [] else '.' :: trimZeros (appendInt nsec 9)

/-- `t.Format(layout)` for the two RFC 3339 layouts.  `RFC3339` is
`2006-01-02T15:04:05Z07:00`: it has no fractional-second element. -/
def Time.Format (t : Time) (layout : Layout) : String :=
  String.mk
    (appendInt t.year 4 ++ '-' :: (appendInt t.month 2 ++ '-' :: (appendInt t.day 2 ++
      'T' :: (appendInt t.hour 2 ++ ':' :: (appendInt t.min 2 ++ ':' :: (appendInt t.sec 2 ++
      ((match layout with
        | Layout.RFC3339 => []
        | Layout.RFC3339Nano => appendNano t.nsec) ++ appendZone t.offset)))))))

/-- The nineteen characters `2006-01-02T15:04:05` of a time whose fields
have at most four (year) and two digits. -/
def dateTime (t : Time) : List Char :=
  [digitChar (t.year / 10 / 10 / 10), digitChar (t.year / 10 / 10), digitChar (t.year / 10),
    digitChar t.year, '-', digitChar (t.month / 10), digitChar t.month, '-',
    digitChar (t.day / 10), digitChar t.day, 'T', digitChar (t.hour / 10), digitChar t.hour, ':',
    digitChar (t.min / 10), digitChar t.min, ':', digitChar (t.sec / 10), digitChar t.sec]

def isDigit (c : Char) : Bool := decide ('0' ≤ c) && decide (c ≤ '9')

/-- The `parseUint` closure of `parseRFC3339`: all characters are digits and
the value lies in `[lo, hi]`. -/
def parseUint (s : List Char) (lo hi : Nat) : Option Nat :=
  if s.all isDigit then
    let x := s.foldl (fun x c => x * 10 + (c.toNat - 48)) 0
    if lo ≤ x ∧ x ≤ hi then some x else none
  else none

/-- Go `parseNanoseconds` on the digits after the period: the first nine
digits count, scaled to nanoseconds. -/
def parseNanoseconds (digits : List Char) : Nat :=
  let ds := digits.take 9
  ds.foldl (fun x c => x * 10 + (c.toNat - 48)) 0 * 10 ^ (9 - ds.length)

/-- The optional fractional second: the nanoseconds and the rest of the input. -/
def parseFrac (s : List Char) : Nat × List Char :=
  match s with
  | '.' :: d :: rest =>
    if isDigit d then
      (parseNanoseconds (d :: rest.takeWhile isDigit), rest.dropWhile isDigit)
    else (0, s)
  | _ => (0, s)

/-- The zone: `Z`, or a sign and `hh:mm`; the result is the offset in seconds. -/
def parseZone (s : List Char) : Option Int :=
  match s with
  | ['Z'] => some 0
  | [sg, h1, h2, c, m1, m2] =>
    match parseUint [h1, h2] 0 23, parseUint [m1, m2] 0 59 with
    | some hr, some mm =>
      if (sg = '-' ∨ sg = '+') ∧ c = ':' then
        some (if sg = '-' then -(((hr * 60 + mm) * 60 : Nat) : Int) else (((hr * 60 + mm) * 60 : Nat) : Int))
      else none
    | _, _ => none
  | _ => none

/-- Go `parseRFC3339`. -/
def parseRFC3339 (s : List Char) : Option Time :=
  match s with
  | y1 :: y2 :: y3 :: y4 :: c4 :: m1 :: m2 :: c7 :: d1 :: d2 :: c10 :: h1 :: h2 :: c13 ::
      n1 :: n2 :: c16 :: s1 :: s2 :: rest =>
    match parseUint [y1, y2, y3, y4] 0 9999, parseUint [m1, m2] 1 12 with
    | some year, some month =>
      match parseUint [d1, d2] 1 (daysIn month year), parseUint [h1, h2] 0 23,
          parseUint [n1, n2] 0 59, parseUint [s1, s2] 0 59 with
      | some day, some hour, some min, some sec =>
        if c4 = '-' ∧ c7 = '-' ∧ c10 = 'T' ∧ c13 = ':' ∧ c16 = ':' then
          match parseZone (parseFrac rest).2 with
          | some offset => some ⟨year, month, day, hour, min, sec, (parseFrac rest).1, offset⟩
          | none => none
        else none
      | _, _, _, _ => none
    | _, _ => none
  | _ => none

/-- Go `getnum(s, fixed)`: a one or two digit number and the rest of the
input; with `fixed` the number must have two digits. -/
def getnum (s : List Char) (fixed : Bool) : Option (Nat × List Char) :=
  match s with
  | [] => none
  | c1 :: rest =>
    if isDigit c1 then
      match rest with
      | c2 :: rest2 =>
        if isDigit c2 then some ((c1.toNat - 48) * 10 + (c2.toNat - 48), rest2)
        else if fixed then none
        else some (c1.toNat - 48, rest)
      | [] => if fixed then none else some (c1.toNat - 48, rest)
    else none

/-- Go `skip(value, prefix)` for a one character literal of the layout. -/
def skip (value : List Char) (c : Char) : Option (List Char) :=
  match value with
  | d :: rest => if d = c then some rest else none
  | [] => none

/-- The layout element `2006` in the general parser: four digits. -/
def parseYear (value : List Char) : Option (Nat × List Char) :=
  match value with
  | y1 :: y2 :: y3 :: y4 :: rest =>
    if [y1, y2, y3, y4].all isDigit then
      some ([y1, y2, y3, y4].foldl (fun x c => x * 10 + (c.toNat - 48)) 0, rest)
    else none
  | _ => none

/-- The fractional second that the general parser accepts after the seconds
although the layout has none: a period or a comma, and digits. -/
def parseFracGeneral (value : List Char) : Nat × List Char :=
  match value with
  | sep :: d :: rest =>
    if (sep = '.' ∨ sep = ',') ∧ isDigit d = true then
      (parseNanoseconds (d :: rest.takeWhile isDigit), rest.dropWhile isDigit)
    else (0, value)
  | _ => (0, value)

/-- The layout element `Z07:00` in the general parser: `Z`, or a sign and
`hh:mm` with `hh ≤ 24` and `mm ≤ 60`; the result is the offset in seconds
and the rest of the input. -/
def parseZoneGeneral (value : List Char) : Option (Int × List Char) :=
  match value with
  | 'Z' :: rest => some (0, rest)
  | sg :: h1 :: h2 :: c :: m1 :: m2 :: rest =>
    if c = ':' then
      match getnum [h1, h2] true, getnum [m1, m2] true with
      | some (hr, _), some (mm, _) =>
        if hr ≤ 24 ∧ mm ≤ 60 then
          if sg = '+' then some ((((hr * 60 + mm) * 60 : Nat) : Int), rest)
          else if sg = '-' then some (-(((hr * 60 + mm) * 60 : Nat) : Int), rest)
          else none
        else none
      | _, _ => none
    else none
  | _ => none

/-- A literal character of the layout followed by a number: Go `skip` and
then `getnum`. -/
def getnumAfter (c : Char) (value : List Char) (fixed : Bool) : Option (Nat × List Char) :=
  match skip value c with
  | some v => getnum v fixed
  | none => none

/-- Go `parse(layout, value, UTC, Local)` for the layout
`2006-01-02T15:04:05Z07:00`, element by element: four digit year, two digit
month and day, an hour of one or two digits, two digit minute and second, an
optional fractional second, the zone, and no text after it; the day is
checked against the month at the end. -/
def parse (value : List Char) : Option Time :=
  match parseYear value with
  | none => none
  | some (year, v) =>
    match getnumAfter '-' v true with
    | none => none
    | some (month, v) =>
      if month = 0 ∨ 12 < month then none
      else
        match getnumAfter '-' v true with
        | none => none
        | some (day, v) =>
          match getnumAfter 'T' v false with
          | none => none
          | some (hour, v) =>
            if 24 ≤ hour then none
            else
              match getnumAfter ':' v true with
              | none => none
              | some (min, v) =>
                if 60 ≤ min then none
                else
                  match getnumAfter ':' v true with
                  | none => none
                  | some (sec, v) =>
                    if 60 ≤ sec then none
                    else
                      match parseZoneGeneral (parseFracGeneral v).2 with
                      | some (offset, []) =>
                        if day < 1 ∨ daysIn month year < day then none
                        else some ⟨year, month, day, hour, min, sec, (parseFracGeneral v).1, offset⟩
                      | _ => none

/-- `time.Parse(layout, value)` for the RFC 3339 layouts: `parseRFC3339`
first and, when that fails, the general parser; the result is the parsed
time, or the zero time together with an error. -/
def Parse (_layout : Layout) (value : String) : Time × Option String :=
  match parseRFC3339 value.data with
  | some t => (t, none)
  | none =>
    match parse value.data with
    | some t => (t, none)
    | none =>
      (Time.zero, some ("parsing time \"" ++ value ++ "\" as \"2006-01-02T15:04:05Z07:00\": cannot parse"))

end time

namespace json

/-- A JSON value as delivered by the scanner of `encoding/json`.  A string
carries its text; a number carries its literal. -/
inductive Value where
  | null
  | bool (b : Bool)
  | number (lit : String)
  | string (s : String)
  | array (elems : List Value)
  | object (members : List (String × Value))

/-- The name the decoder uses for a value in an `UnmarshalTypeError`. -/
def Value.kind : Value → String
  | .null => "null"
  | .bool _ => "bool"
  | .number _ => "number"
  | .string _ => "string"
  | .array _ => "array"
  | .object _ => "object"

end json

/-- The body of a request as the JSON decoder sees it: the scanner either
rejects it with an error or delivers its first JSON value. -/
inductive Body where
  | syntaxError (msg : String)
  | value (v : json.Value)

/-- An inbound `*http.Request`: only these parts can matter to the program. -/
structure Request where
  method : String
  path : String
  header : List (String × String)
  body : Body

namespace main

/-- Task represents a todo task. -/
structure Task where
  Title : String
  DueDate : time.Time
deriving DecidableEq, Repr

/-- The zero value of `Task`, as declared by `var task Task`. -/
def Task.zero : Task := ⟨"", time.Time.zero⟩

/-- A Go slice: the nil slice, or an allocated sequence of elements. -/
inductive Slice (α : Type) where
  | nil
  | mk (elems : List α)

/-- Go `append(s, x)`: appending to the nil slice allocates. -/
def Slice.append {α : Type} : Slice α → α → Slice α
  | .nil, x => .mk [x]
  | .mk l, x => .mk (l ++ [x])

/-- The elements of a slice; the nil slice has none. -/
def Slice.toList {α : Type} : Slice α → List α
  | .nil => []
  | .mk l => l

end main

namespace json

open main (Slice)

/-- The fields of `Task` that a JSON key can select. -/
inductive Field where
  | Title
  | DueDate
deriving DecidableEq

/-- The case folding of field lookup; for the ASCII names `title` and
`due_date` it is ASCII upper-casing. -/
def foldName (s : String) : List Char := s.data.map Char.toUpper

/-- Field lookup for a key: the exact tag name first, then the folded name. -/
def lookupField (key : String) : Option Field :=
  if key = "title" then some .Title
  else if key = "due_date" then some .DueDate
  else if foldName key = foldName "title" then some .Title
  else if foldName key = foldName "due_date" then some .DueDate
  else none

/-- `(*Time).UnmarshalJSON`: `null` is a no-op, anything but a string is an
error, and a string is parsed as `time.Parse(time.RFC3339, s)` does (the
strict check of `parseStrictRFC3339` is switched off in the library).  The
method reads the raw text between the quotes, so the string is taken to be
written without escape sequences. -/
def UnmarshalTime (t : time.Time) (v : Value) : Except String time.Time :=
  match v with
  | .null => .ok t
  | .string s =>
    match time.Parse time.Layout.RFC3339 s with
    | (t1, none) => .ok t1
    | (_, some e) => .error e
  | _ => .error "Time.UnmarshalJSON: input is not a JSON string"

/-- The decoder's progress through an object: the task so far and the first
saved `UnmarshalTypeError`. -/
structure decodeState where
  task : main.Task
  savedError : Option String

/-- Go `d.saveError`: only the first error is kept. -/
def decodeState.saveError (st : decodeState) (msg : String) : decodeState :=
  match st.savedError with
  | some _ => st
  | none => { st with savedError := some msg }

/-- Decoding one object member into the task.  A key that selects no field is
skipped; a mistyped `title` saves an error and decoding goes on; an error of
the time's `UnmarshalJSON` ends decoding. -/
def decodeMember (st : decodeState) (key : String) (v : Value) : Except String decodeState :=
  match lookupField key with
  | none => .ok st
  | some .Title =>
    match v with
    | .string s => .ok { st with task := { st.task with Title := s } }
    | .null => .ok st
    | _ => .ok (st.saveError
        ("json: cannot unmarshal " ++ v.kind ++ " into Go struct field Task.title of type string"))
  | some .DueDate =>
    match UnmarshalTime st.task.DueDate v with
    | .ok t => .ok { st with task := { st.task with DueDate := t } }
    | .error e => .error e

/-- The members of an object are decoded in order. -/
def decodeObject : decodeState → List (String × Value) → Except String decodeState
  | st, [] => .ok st
  | st, (k, v) :: rest =>
    match decodeMember st k v with
    | .ok st1 => decodeObject st1 rest
    | .error e => .error e

/-- `json.NewDecoder(r.Body).Decode(&task)` for a zero `task`: the decoded
task, or the error.  A field that no member sets keeps its zero value; the
decoder has no notion of a required field. -/
def Decode (body : Body) : Except String main.Task :=
  match body with
  | .syntaxError msg => .error msg
  | .value .null => .ok main.Task.zero
  | .value (.object members) =>
    match decodeObject ⟨main.Task.zero, none⟩ members with
    | .ok st =>
      match st.savedError with
      | some e => .error e
      | none => .ok st.task
    | .error e => .error e
  | .value v => .error ("json: cannot unmarshal " ++ v.kind ++ " into Go value of type main.Task")

/-- `Time.MarshalJSON`: the `RFC3339Nano` text as a JSON string, refused when
the year has more than four digits or the zone hour is above 23. -/
def MarshalTime (t : time.Time) : Except String Value :=
  if 9999 < t.year then .error "Time.MarshalJSON: year outside of range [0,9999]"
  else if t.offset ≠ 0 ∧ 24 ≤ (Int.tdiv t.offset 60).natAbs / 60 then
    .error "Time.MarshalJSON: timezone hour outside of range [0,23]"
  else .ok (.string (t.Format time.Layout.RFC3339Nano))

/-- Marshalling a `Task`: an object with the members `title` and `due_date`. -/
def MarshalTask (t : main.Task) : Except String Value :=
  match MarshalTime t.DueDate with
  | .ok d => .ok (.object [("title", .string t.Title), ("due_date", d)])
  | .error e => .error ("json: error calling MarshalJSON for type time.Time: " ++ e)

/-- Marshalling a list of tasks, stopping at the first error. -/
def MarshalTaskList : List main.Task → Except String (List Value)
  | [] => .ok []
  | t :: rest =>
    match MarshalTask t, MarshalTaskList rest with
    | .ok v, .ok vs => .ok (v :: vs)
    | .error e, _ => .error e
    | _, .error e => .error e

/-- Marshalling a `[]Task`: the nil slice is `null`, any other slice is an array. -/
def MarshalTasks : Slice main.Task → Except String Value
  | .nil => .ok .null
  | .mk l =>
    match MarshalTaskList l with
    | .ok vs => .ok (.array vs)
    | .error e => .error e

/-- Marshalling the `map[string]string` of `helloWorldHandler`: an object
with the keys in sorted order. -/
def MarshalMap (m : List (String × String)) : Except String Value :=
  .ok (.object (m.map (fun kv => (kv.1, Value.string kv.2))))

/-- The JSON document that `MarshalTask` gives for a task whose due date is
valid and has a zone offset below 24 hours (see `MarshalTask_ok`). -/
def taskDoc (t : main.Task) : Value :=
  .object [("title", .string t.Title), ("due_date", .string (t.DueDate.Format time.Layout.RFC3339Nano))]

end json

namespace http

/-- One write to the response body.  Both kinds end with a newline on the
wire. -/
inductive Chunk where
  | line (text : String)
  | json (doc : json.Value)

/-- A `http.ResponseWriter`: the header map, the status once written, and the
body written so far. -/
structure ResponseWriter where
  header : List (String × String)
  status : Option Nat
  body : List Chunk

/-- The writer a handler is called with. -/
def ResponseWriter.fresh : ResponseWriter := ⟨[], none, []⟩

/-- `w.Header().Set(key, value)`; it has no effect on the response once the
header has been written. -/
def ResponseWriter.Set (w : ResponseWriter) (key value : String) : ResponseWriter :=
  match w.status with
  | some _ => w
  | none => { w with header := (key, value) :: w.header.filter (fun kv => kv.1 ≠ key) }

/-- `w.WriteHeader(code)`; only the first call counts. -/
def ResponseWriter.WriteHeader (w : ResponseWriter) (code : Nat) : ResponseWriter :=
  match w.status with
  | some _ => w
  | none => { w with status := some code }

/-- `w.Write(chunk)`; the first write sends status 200 when none was set. -/
def ResponseWriter.Write (w : ResponseWriter) (c : Chunk) : ResponseWriter :=
  let w1 := w.WriteHeader 200
  { w1 with body := w1.body ++ [c] }

/-- What the server does when the handler returns: a handler that wrote
nothing gets status 200. -/
def ResponseWriter.finishRequest (w : ResponseWriter) : ResponseWriter :=
  w.WriteHeader 200

def StatusOK : Nat := 200
def StatusCreated : Nat := 201
def StatusBadRequest : Nat := 400
def StatusInternalServerError : Nat := 500

/-- `http.Error(w, error, code)`: a plain-text reply of one line. -/
def Error (w : ResponseWriter) (error : String) (code : Nat) : ResponseWriter :=
  (((w.Set "Content-Type" "text/plain; charset=utf-8").Set "X-Content-Type-Options" "nosniff").WriteHeader
    code).Write (.line error)

/-- `json.NewEncoder(w).Encode(v)` for an already marshalled `v`: a
marshalling error writes nothing and is returned; otherwise one JSON document
is written. -/
def Encode (w : ResponseWriter) (v : Except String json.Value) : ResponseWriter × Option String :=
  match v with
  | .ok doc => (w.Write (.json doc), none)
  | .error e => (w, some e)

/-- An entry of the mux: a registered pattern and its handler. -/
structure muxEntry (H : Type) where
  pattern : String
  h : H

/-- A `http.ServeMux`: the registered entries `m`, and `es`, the entries whose
pattern ends in a slash, longest pattern first. -/
structure ServeMux (H : Type) where
  m : List (muxEntry H)
  es : List (muxEntry H)

/-- What the mux answers a request with: a registered handler, the 404
handler, or a redirect to the canonical path. -/
inductive Target (H : Type) where
  | handler (h : H)
  | NotFound
  | Redirect (url : String)
deriving DecidableEq

def ServeMux.empty {H : Type} : ServeMux H := ⟨[], []⟩

/-- Go `appendSorted`: insert before the first entry with a shorter pattern. -/
def appendSorted {H : Type} : List (muxEntry H) → muxEntry H → List (muxEntry H)
  | [], e => [e]
  | x :: rest, e =>
    if x.pattern.length < e.pattern.length then e :: x :: rest else x :: appendSorted rest e

/-- `mux.HandleFunc(pattern, handler)`. -/
def ServeMux.HandleFunc {H : Type} (mux : ServeMux H) (pattern : String) (h : H) : ServeMux H :=
  let e : muxEntry H := ⟨pattern, h⟩
  { m := e :: mux.m.filter (fun x => x.pattern ≠ pattern)
    es := if pattern.data.getLast? = some '/' then appendSorted mux.es e else mux.es }

/-- Go `mux.match`: an exact match of the path first, then the longest
registered pattern ending in a slash that the path starts with. -/
def ServeMux.matchPath {H : Type} (mux : ServeMux H) (path : String) : Option H :=
  match mux.m.find? (fun e => e.pattern = path) with
  | some e => some e.h
  | none =>
    match mux.es.find? (fun e => e.pattern.data.isPrefixOf path.data) with
    | some e => some e.h
    | none => none

/-- Go `mux.handler` without host patterns: the matched handler or `NotFound`. -/
def ServeMux.handler {H : Type} (mux : ServeMux H) (path : String) : Target H :=
  match mux.matchPath path with
  | some h => .handler h
  | none => .NotFound

/-- Split a path at every slash. -/
def splitSlash : List Char → List (List Char)
  | [] => [[]]
  | c :: cs =>
    match splitSlash cs with
    | [] => [[]]
    | seg :: segs => if c = '/' then [] :: seg :: segs else (c :: seg) :: segs

/-- Go `path.Clean` on a rooted path: empty and `.` elements are dropped, a
`..` element removes the element before it. -/
def pathClean (p : List Char) : List Char :=
  '/' :: List.intercalate ['/']
    ((splitSlash p).foldl
      (fun stack seg =>
        if seg = [] ∨ seg = ['.'] then stack
        else if seg = ['.', '.'] then stack.dropLast
        else stack ++ [seg]) [])

/-- Go `cleanPath` of `net/http`: the canonical path, keeping a trailing slash. -/
def cleanPath (p : String) : String :=
  if p = "" then "/"
  else
    let p1 := if p.data.head? = some '/' then p.data else '/' :: p.data
    let np := pathClean p1
    if p1.getLast? = some '/' ∧ np ≠ ['/'] then String.mk (np ++ ['/']) else String.mk np

/-- Go `mux.shouldRedirectRLocked`: the path is not registered but the path
with a slash appended is. -/
def ServeMux.shouldRedirect {H : Type} (mux : ServeMux H) (path : String) : Bool :=
  if mux.m.any (fun e => e.pattern = path) then false
  else if path.length = 0 then false
  else if mux.m.any (fun e => e.pattern = path ++ "/") then path.data.getLast? ≠ some '/'
  else false

/-- Go `mux.Handler(r)`: a `CONNECT` request is matched as it is; any other
request is redirected when its path is not canonical, and matched otherwise. -/
def ServeMux.Handler {H : Type} (mux : ServeMux H) (r : Request) : Target H :=
  if r.method = "CONNECT" then
    if mux.shouldRedirect r.path then .Redirect (r.path ++ "/") else mux.handler r.path
  else
    let path := cleanPath r.path
    if mux.shouldRedirect path then .Redirect (path ++ "/")
    else if path ≠ r.path then .Redirect path
    else mux.handler r.path

end http

namespace sql

/-- A row of `tasks`: the integer key and the two nullable `TEXT` columns. -/
structure Row where
  id : Nat
  title : Option String
  due_date : Option String
deriving DecidableEq, Repr

/-- The statements the program sends. -/
inductive Stmt where
  | insert (title due_date : String)
  | select
deriving DecidableEq, Repr

/-- The storage behind the handle `db`: the rows of `tasks` in rowid order,
the `AUTOINCREMENT` sequence, and the statements received so far. -/
structure DB where
  tasks : List Row
  seq : Nat
  log : List Stmt
deriving DecidableEq, Repr

/-- The database right after `initDB` created the table in a new file. -/
def DB.empty : DB := ⟨[], 0, []⟩

/-- What the driver does wrong during one handler call: `exec` makes
`db.Exec` fail, `query` makes `db.Query` fail, `next = some (n, e)` makes the
iteration stop after `n` rows with `rows.Err() = e`. -/
structure Faults where
  exec : Option String
  query : Option String
  next : Option (Nat × String)

/-- No failure at the database layer. -/
def Faults.none : Faults := ⟨Option.none, Option.none, Option.none⟩

def maxRowid : List Row → Nat
  | [] => 0
  | r :: rest => max r.id (maxRowid rest)

/-- `db.Exec("INSERT INTO tasks (title, due_date) VALUES (?, ?)", title, due_date)`:
on success one row is appended under a new key. -/
def DB.Exec (db : DB) (f : Faults) (title due_date : String) : DB × Option String :=
  let db1 := { db with log := db.log ++ [Stmt.insert title due_date] }
  match f.exec with
  | some e => (db1, some e)
  | Option.none =>
    let id := max db1.seq (maxRowid db1.tasks) + 1
    ({ db1 with tasks := db1.tasks ++ [⟨id, some title, some due_date⟩], seq := id }, Option.none)

/-- An open result set: the rows `Next` will still deliver, and the error the
iteration ends with. -/
structure Rows where
  pending : List Row
  err : Option String

/-- `db.Query("SELECT title, due_date FROM tasks")`. -/
def DB.Query (db : DB) (f : Faults) : DB × Except String Rows :=
  let db1 := { db with log := db.log ++ [Stmt.select] }
  match f.query with
  | some e => (db1, .error e)
  | Option.none =>
    match f.next with
    | Option.none => (db1, .ok ⟨db1.tasks, Option.none⟩)
    | some (n, e) => (db1, .ok ⟨db1.tasks.take n, some e⟩)

/-- `rows.Scan(&task.Title, &dueDate)`: a `NULL` cannot be stored in a `string`. -/
def Row.Scan (r : Row) : Except String (String × String) :=
  match r.title, r.due_date with
  | some t, some d => .ok (t, d)
  | Option.none, _ =>
    .error "sql: Scan error on column index 0, name \"title\": converting NULL to string is unsupported"
  | some _, Option.none =>
    .error "sql: Scan error on column index 1, name \"due_date\": converting NULL to string is unsupported"

end sql

namespace main

open http sql

/-- `helloWorldHandler` of `main.go`. -/
def helloWorldHandler (_f : Faults) (w : ResponseWriter) (_r : Request) (db : DB) :
    ResponseWriter × DB :=
  let response := [("message", "hello world")]
  let w := w.Set "Content-Type" "application/json"
  ((Encode w (json.MarshalMap response)).1, db)

/-- `createTaskHandler` of `main.go`. -/
def createTaskHandler (f : Faults) (w : ResponseWriter) (r : Request) (db : DB) :
    ResponseWriter × DB :=
  match json.Decode r.body with
  | .error err => (Error w err StatusBadRequest, db)
  | .ok task =>
    match db.Exec f task.Title (task.DueDate.Format time.Layout.RFC3339) with
    | (db1, some err) => (Error w err StatusInternalServerError, db1)
    | (db1, Option.none) =>
      let w := w.WriteHeader StatusCreated
      ((Encode w (json.MarshalTask task)).1, db1)

/-- The loop `for rows.Next() { ... }` of `listTasksHandler`: each delivered
row is scanned, its `due_date` parsed with the error dropped, and the task
appended; a scan error leaves the loop. -/
def listTasksLoop : List Row → Slice Task → Except String (Slice Task)
  | [], tasks => .ok tasks
  | row :: rest, tasks =>
    match row.Scan with
    | .error err => .error err
    | .ok (title, dueDate) =>
      listTasksLoop rest (tasks.append ⟨title, (time.Parse time.Layout.RFC3339 dueDate).1⟩)

/-- `listTasksHandler` of `main.go`.  `rows.Err()` is never read. -/
def listTasksHandler (f : Faults) (w : ResponseWriter) (_r : Request) (db : DB) :
    ResponseWriter × DB :=
  match db.Query f with
  | (db1, .error err) => (Error w err StatusInternalServerError, db1)
  | (db1, .ok rows) =>
    match listTasksLoop rows.pending Slice.nil with
    | .error err => (Error w err StatusInternalServerError, db1)
    | .ok tasks =>
      let w := w.Set "Content-Type" "application/json"
      ((Encode w (json.MarshalTasks tasks)).1, db1)

/-- The task that the loop of `listTasksHandler` builds from a scanned row. -/
def rowTask (row : Row) : Task :=
  ⟨row.title.getD "", (time.Parse time.Layout.RFC3339 (row.due_date.getD "")).1⟩

/-- The JSON document `listTasksHandler` writes for a table whose rows all scan
and can all be marshalled (see `listTasksHandler_ok`). -/
def listDoc (rows : List Row) : json.Value :=
  match rows with
  | [] => .null
  | _ :: _ => .array (rows.map (fun row => json.taskDoc (rowTask row)))

/-- The three handlers of the program. -/
inductive Route where
  | helloWorldHandler
  | createTaskHandler
  | listTasksHandler
deriving DecidableEq, Repr

/-- The handler function a route names. -/
def Route.run : Route → Faults → ResponseWriter → Request → DB → ResponseWriter × DB
  | .helloWorldHandler => main.helloWorldHandler
  | .createTaskHandler => main.createTaskHandler
  | .listTasksHandler => main.listTasksHandler

/-- The registrations made by `main` on the default mux. -/
def mux : ServeMux Route :=
  ((ServeMux.empty.HandleFunc "/" Route.helloWorldHandler).HandleFunc "/tasks"
    Route.createTaskHandler).HandleFunc "/tasks/list" Route.listTasksHandler

/-- The states of the storage that calls of the handlers can produce,
starting from the empty table. -/
inductive Reachable : DB → Prop where
  | init : Reachable DB.empty
  | call (route : Route) (f : Faults) (w : ResponseWriter) (r : Request) (db : DB) :
      Reachable db → Reachable (route.run f w r db).2

end main


/-! ## Properties of the time layouts -/

namespace time

theorem isDigit_digitChar (n : Nat) : isDigit (digitChar n) = true := by
  have h : n % 10 < 10 := Nat.mod_lt _ (by decide)
  unfold digitChar
  generalize n % 10 = k at h
  interval_cases k <;> decide

theorem toNat_digitChar (n : Nat) : (digitChar n).toNat - 48 = n % 10 := by
  have h : n % 10 < 10 := Nat.mod_lt _ (by decide)
  unfold digitChar
  generalize n % 10 = k at h
  interval_cases k <;> decide

theorem appendInt_two (x : Nat) (h : x < 100) :
    appendInt x 2 = [digitChar (x / 10), digitChar x] := by
  have h2 : x < 10 ^ 2 := h
  rw [appendInt, if_pos h2]
  rfl

theorem appendInt_four (x : Nat) (h : x < 10000) :
    appendInt x 4 = [digitChar (x / 10 / 10 / 10), digitChar (x / 10 / 10), digitChar (x / 10), digitChar x] := by
  have h2 : x < 10 ^ 4 := h
  rw [appendInt, if_pos h2]
  rfl

theorem all_isDigit_two (a b : Nat) : [digitChar a, digitChar b].all isDigit = true := by
  rw [List.all_cons, List.all_cons, List.all_nil, isDigit_digitChar, isDigit_digitChar]
  rfl

theorem parseUint_two (x lo hi : Nat) (h : x < 100) (hlo : lo ≤ x) (hhi : x ≤ hi) :
    parseUint [digitChar (x / 10), digitChar x] lo hi = some x := by
  have e : [digitChar (x / 10), digitChar x].foldl (fun x c => x * 10 + (c.toNat - 48)) 0 = x := by
    rw [List.foldl_cons, List.foldl_cons, List.foldl_nil, toNat_digitChar, toNat_digitChar]
    omega
  unfold parseUint
  rw [if_pos (all_isDigit_two _ _)]
  show (if lo ≤ _ ∧ _ ≤ hi then some _ else none) = some x
  rw [e, if_pos ⟨hlo, hhi⟩]

theorem all_isDigit_four (a b c d : Nat) :
    [digitChar a, digitChar b, digitChar c, digitChar d].all isDigit = true := by
  rw [List.all_cons, List.all_cons, List.all_cons, List.all_cons, List.all_nil,
    isDigit_digitChar, isDigit_digitChar, isDigit_digitChar, isDigit_digitChar]
  rfl

theorem parseUint_four (x lo hi : Nat) (h : x < 10000) (hlo : lo ≤ x) (hhi : x ≤ hi) :
    parseUint [digitChar (x / 10 / 10 / 10), digitChar (x / 10 / 10), digitChar (x / 10), digitChar x]
      lo hi = some x := by
  have e : [digitChar (x / 10 / 10 / 10), digitChar (x / 10 / 10), digitChar (x / 10),
      digitChar x].foldl (fun x c => x * 10 + (c.toNat - 48)) 0 = x := by
    rw [List.foldl_cons, List.foldl_cons, List.foldl_cons, List.foldl_cons, List.foldl_nil,
      toNat_digitChar, toNat_digitChar, toNat_digitChar, toNat_digitChar]
    omega
  unfold parseUint
  rw [if_pos (all_isDigit_four _ _ _ _)]
  show (if lo ≤ _ ∧ _ ≤ hi then some _ else none) = some x
  rw [e, if_pos ⟨hlo, hhi⟩]

theorem parseUint_two_none (x lo hi : Nat) (h : x < 100) (hx : ¬ (lo ≤ x ∧ x ≤ hi)) :
    parseUint [digitChar (x / 10), digitChar x] lo hi = none := by
  have e : [digitChar (x / 10), digitChar x].foldl (fun x c => x * 10 + (c.toNat - 48)) 0 = x := by
    rw [List.foldl_cons, List.foldl_cons, List.foldl_nil, toNat_digitChar, toNat_digitChar]
    omega
  unfold parseUint
  rw [if_pos (all_isDigit_two _ _)]
  show (if lo ≤ _ ∧ _ ≤ hi then some _ else none) = none
  rw [e, if_neg hx]

theorem getnum_two (x : Nat) (h : x < 100) (rest : List Char) (fixed : Bool) :
    getnum (digitChar (x / 10) :: digitChar x :: rest) fixed = some (x, rest) := by
  have e : (x / 10 % 10) * 10 + x % 10 = x := by omega
  simp only [getnum, isDigit_digitChar, if_true, toNat_digitChar, e]

theorem parseYear_four (x : Nat) (h : x < 10000) (rest : List Char) :
    parseYear (digitChar (x / 10 / 10 / 10) :: digitChar (x / 10 / 10) :: digitChar (x / 10)
      :: digitChar x :: rest) = some (x, rest) := by
  have e : [digitChar (x / 10 / 10 / 10), digitChar (x / 10 / 10), digitChar (x / 10),
      digitChar x].foldl (fun x c => x * 10 + (c.toNat - 48)) 0 = x := by
    rw [List.foldl_cons, List.foldl_cons, List.foldl_cons, List.foldl_cons, List.foldl_nil,
      toNat_digitChar, toNat_digitChar, toNat_digitChar, toNat_digitChar]
    omega
  simp only [parseYear]
  rw [if_pos (all_isDigit_four _ _ _ _), e]

theorem daysIn_le (month year : Nat) : daysIn month year ≤ 31 := by
  unfold daysIn; split_ifs <;> omega

/-- The text of a valid time starts with its date and clock characters. -/
theorem Format_data (t : Time) (h : t.Valid) (layout : Layout) :
    (t.Format layout).data = dateTime t ++
      ((match layout with
        | Layout.RFC3339 => []
        | Layout.RFC3339Nano => appendNano t.nsec) ++ appendZone t.offset) := by
  obtain ⟨hy, hm1, hm2, hd1, hd2, hh, hmi, hs, -, ho1, ho2, ho3⟩ := h
  have hdd : t.day < 100 := by have := daysIn_le t.month t.year; omega
  simp only [Time.Format, appendInt_four t.year (by omega), appendInt_two t.month (by omega),
    appendInt_two t.day hdd, appendInt_two t.hour (by omega), appendInt_two t.min (by omega),
    appendInt_two t.sec (by omega), List.cons_append, List.nil_append, dateTime]

/-- `parseRFC3339` on the date and clock characters of a valid time followed
by any text: the fields are read back, the rest decides. -/
theorem parseRFC3339_dateTime (t : Time) (h : t.Valid) (rest : List Char) :
    parseRFC3339 (dateTime t ++ rest) =
      (match parseZone (parseFrac rest).2 with
        | some offset => some ⟨t.year, t.month, t.day, t.hour, t.min, t.sec, (parseFrac rest).1, offset⟩
        | none => none) := by
  obtain ⟨hy, hm1, hm2, hd1, hd2, hh, hmi, hs, -, ho1, ho2, ho3⟩ := h
  have hdd : t.day < 100 := by have := daysIn_le t.month t.year; omega
  simp only [dateTime, List.cons_append, List.nil_append, parseRFC3339]
  rw [parseUint_four _ 0 9999 (by omega) (by omega) hy, parseUint_two _ 1 12 (by omega) hm1 hm2]
  simp only []
  rw [parseUint_two _ 1 _ hdd hd1 hd2, parseUint_two _ 0 23 (by omega) (by omega) hh,
    parseUint_two _ 0 59 (by omega) (by omega) hmi, parseUint_two _ 0 59 (by omega) (by omega) hs]
  simp only [and_self, if_true]

/-- The general parser on the date and clock characters of a valid time
followed by any text. -/
theorem parse_dateTime (t : Time) (h : t.Valid) (rest : List Char) :
    parse (dateTime t ++ rest) =
      (match parseZoneGeneral (parseFracGeneral rest).2 with
        | some (offset, []) =>
          some ⟨t.year, t.month, t.day, t.hour, t.min, t.sec, (parseFracGeneral rest).1, offset⟩
        | _ => none) := by
  obtain ⟨hy, hm1, hm2, hd1, hd2, hh, hmi, hs, -, ho1, ho2, ho3⟩ := h
  have hdd : t.day < 100 := by have := daysIn_le t.month t.year; omega
  have n1 : ¬ (t.month = 0 ∨ 12 < t.month) := by omega
  have n2 : ¬ (24 ≤ t.hour) := by omega
  have n3 : ¬ (60 ≤ t.min) := by omega
  have n4 : ¬ (60 ≤ t.sec) := by omega
  have n5 : ¬ (t.day < 1 ∨ daysIn t.month t.year < t.day) := by omega
  simp only [dateTime, List.cons_append, List.nil_append, parse]
  rw [parseYear_four t.year (by omega)]
  simp only [getnumAfter, skip, ↓reduceIte, if_true]
  rw [getnum_two t.month (by omega)]
  simp only [if_neg n1, ↓reduceIte, if_true]
  rw [getnum_two t.day hdd]
  simp only [↓reduceIte, if_true]
  rw [getnum_two t.hour (by omega)]
  simp only [if_neg n2, ↓reduceIte, if_true]
  rw [getnum_two t.min (by omega)]
  simp only [if_neg n3, ↓reduceIte, if_true]
  rw [getnum_two t.sec (by omega)]
  simp only [if_neg n4, if_neg n5]

/-- The zone text of a non-zero whole-minute offset of `n` seconds east. -/
theorem appendZone_east (n : Nat) (h0 : 0 < n) (h60 : n % 60 = 0) (hhi : n < 360000) :
    appendZone (n : Int) = ['+', digitChar (n / 60 / 60 / 10), digitChar (n / 60 / 60), ':',
      digitChar (n / 60 % 60 / 10), digitChar (n / 60 % 60)] := by
  unfold appendZone
  have hne : ¬ ((n : Int) = 0) := by omega
  have hz : Int.tdiv (n : Int) 60 = ((n / 60 : Nat) : Int) := (Int.ofNat_tdiv n 60).symm
  have hn : ¬ (((n / 60 : Nat) : Int) < 0) := by omega
  simp only [if_neg hne, hz, if_neg hn, Int.natAbs_ofNat]
  rw [appendInt_two _ (show n / 60 / 60 < 100 by omega), appendInt_two _ (show n / 60 % 60 < 100 by omega)]
  rfl

/-- The zone text of a non-zero whole-minute offset of `n` seconds west. -/
theorem appendZone_west (n : Nat) (h0 : 0 < n) (h60 : n % 60 = 0) (hhi : n < 360000) :
    appendZone (-(n : Int)) = ['-', digitChar (n / 60 / 60 / 10), digitChar (n / 60 / 60), ':',
      digitChar (n / 60 % 60 / 10), digitChar (n / 60 % 60)] := by
  unfold appendZone
  have hne : ¬ (-(n : Int) = 0) := by omega
  have hz : Int.tdiv (-(n : Int)) 60 = -((n / 60 : Nat) : Int) := by
    rw [Int.neg_tdiv]; exact congrArg _ (Int.ofNat_tdiv n 60).symm
  have hn : -((n / 60 : Nat) : Int) < 0 := by omega
  simp only [if_neg hne, hz, if_pos hn, Int.natAbs_neg, Int.natAbs_ofNat]
  rw [appendInt_two _ (show n / 60 / 60 < 100 by omega), appendInt_two _ (show n / 60 % 60 < 100 by omega)]
  rfl

/-- What `parseRFC3339` makes of a sign and the digits of a whole-minute
offset: the offset when its hour is at most 23, failure otherwise. -/
theorem parseZone_digits (n : Nat) (sg : Char) (hs : sg = '-' ∨ sg = '+')
    (h60 : n % 60 = 0) (hhi : n < 360000) :
    parseZone [sg, digitChar (n / 60 / 60 / 10), digitChar (n / 60 / 60), ':',
      digitChar (n / 60 % 60 / 10), digitChar (n / 60 % 60)]
      = if n < 86400 then some (if sg = '-' then -((n : Nat) : Int) else ((n : Nat) : Int))
        else none := by
  have hb : n / 60 / 60 < 100 := by omega
  have hm : n / 60 % 60 < 100 := by omega
  have hn : (n / 60 / 60 * 60 + n / 60 % 60) * 60 = n := by omega
  simp only [parseZone]
  by_cases hlt : n < 86400
  · rw [parseUint_two _ 0 23 hb (by omega) (by omega), parseUint_two _ 0 59 hm (by omega) (by omega)]
    simp only [hs, and_self, if_true, hn, hlt]
  · rw [parseUint_two_none _ 0 23 hb (by omega)]
    simp only [hlt, if_false]

/-- What the general parser makes of a sign and the digits of a whole-minute
offset: the offset when its hour is at most 24, failure otherwise. -/
theorem parseZoneGeneral_digits (n : Nat) (sg : Char) (hs : sg = '-' ∨ sg = '+')
    (h60 : n % 60 = 0) (hhi : n < 360000) :
    parseZoneGeneral [sg, digitChar (n / 60 / 60 / 10), digitChar (n / 60 / 60), ':',
      digitChar (n / 60 % 60 / 10), digitChar (n / 60 % 60)]
      = if n < 90000 then some ((if sg = '-' then -((n : Nat) : Int) else ((n : Nat) : Int)), [])
        else none := by
  have hb : n / 60 / 60 < 100 := by omega
  have hm : n / 60 % 60 < 100 := by omega
  have hn : (n / 60 / 60 * 60 + n / 60 % 60) * 60 = n := by omega
  have hZ : sg ≠ 'Z' := by rcases hs with rfl | rfl <;> decide
  unfold parseZoneGeneral
  split
  · rename_i heq
    cases heq
    exact absurd rfl hZ
  · rename_i heq
    cases heq
    rw [if_pos rfl, getnum_two _ hb, getnum_two _ hm]
    simp only [hn]
    by_cases hlt : n < 90000
    · have hr : n / 60 / 60 ≤ 24 ∧ n / 60 % 60 ≤ 60 := by omega
      rw [if_pos hr, if_pos hlt]
      rcases hs with rfl | rfl
      · rw [if_neg (by decide), if_pos rfl, if_pos rfl]
      · rw [if_pos rfl, if_neg (by decide)]
    · have hr : ¬ (n / 60 / 60 ≤ 24 ∧ n / 60 % 60 ≤ 60) := by omega
      rw [if_neg hr, if_neg hlt]
  · rename_i h1 h2
    exact absurd rfl (h2 _ _ _ _ _ _ _)

/-- The zone text of a whole-minute offset of at most 25 hours, read by
`parseRFC3339`: no fraction is seen, and the offset comes back when it is
below 24 hours. -/
theorem zone_strict (o : Int) (h60 : o % 60 = 0) (hlo : -90000 ≤ o) (hhi : o ≤ 90000) :
    (parseFrac (appendZone o)).1 = 0 ∧
    parseZone (parseFrac (appendZone o)).2 = if o.natAbs < 86400 then some o else none := by
  by_cases h0 : o = 0
  · subst h0; exact ⟨rfl, rfl⟩
  · obtain ⟨n, rfl | rfl⟩ := Int.eq_nat_or_neg o
    · rw [appendZone_east n (by omega) (by omega) (by omega)]
      refine ⟨rfl, ?_⟩
      show parseZone [_, _, _, _, _, _] = _
      rw [parseZone_digits n '+' (Or.inr rfl) (by omega) (by omega)]
      simp only [Int.natAbs_ofNat]
      rfl
    · rw [appendZone_west n (by omega) (by omega) (by omega)]
      refine ⟨rfl, ?_⟩
      show parseZone [_, _, _, _, _, _] = _
      rw [parseZone_digits n '-' (Or.inl rfl) (by omega) (by omega)]
      simp only [Int.natAbs_neg, Int.natAbs_ofNat]
      rfl

theorem parseFracGeneral_other (c : Char) (rest : List Char) (h1 : c ≠ '.') (h2 : c ≠ ',') :
    parseFracGeneral (c :: rest) = (0, c :: rest) := by
  unfold parseFracGeneral
  split
  · rename_i sep d r heq
    cases heq
    rw [if_neg]
    rintro ⟨h | h, -⟩
    · exact h1 h
    · exact h2 h
  · rfl

/-- The zone text of a whole-minute offset of at most 25 hours, read by the
general parser: no fraction is seen, and the offset comes back when it is
below 25 hours. -/
theorem zone_general (o : Int) (h60 : o % 60 = 0) (hlo : -90000 ≤ o) (hhi : o ≤ 90000) :
    (parseFracGeneral (appendZone o)).1 = 0 ∧
    parseZoneGeneral (parseFracGeneral (appendZone o)).2
      = if o.natAbs < 90000 then some (o, []) else none := by
  by_cases h0 : o = 0
  · subst h0; exact ⟨rfl, rfl⟩
  · obtain ⟨n, rfl | rfl⟩ := Int.eq_nat_or_neg o
    · rw [appendZone_east n (by omega) (by omega) (by omega)]
      have e := parseFracGeneral_other '+' [digitChar (n / 60 / 60 / 10), digitChar (n / 60 / 60), ':',
          digitChar (n / 60 % 60 / 10), digitChar (n / 60 % 60)] (by decide) (by decide)
      rw [e]
      refine ⟨rfl, ?_⟩
      show parseZoneGeneral [_, _, _, _, _, _] = _
      rw [parseZoneGeneral_digits n '+' (Or.inr rfl) (by omega) (by omega)]
      simp only [Int.natAbs_ofNat]
      rfl
    · rw [appendZone_west n (by omega) (by omega) (by omega)]
      have e := parseFracGeneral_other '-' [digitChar (n / 60 / 60 / 10), digitChar (n / 60 / 60), ':',
          digitChar (n / 60 % 60 / 10), digitChar (n / 60 % 60)] (by decide) (by decide)
      rw [e]
      refine ⟨rfl, ?_⟩
      show parseZoneGeneral [_, _, _, _, _, _] = _
      rw [parseZoneGeneral_digits n '-' (Or.inl rfl) (by omega) (by omega)]
      simp only [Int.natAbs_neg, Int.natAbs_ofNat]
      rfl

/-- Reading back the `RFC3339` text of a valid time whose zone offset is below
25 hours gives the time without its fractional second, and no error. -/
theorem Parse_Format (t : Time) (h : t.Valid) (ho : t.offset.natAbs < 90000) (layout : Layout) :
    Parse layout (t.Format Layout.RFC3339) = ({ t with nsec := 0 }, none) := by
  have hv := h
  obtain ⟨-, -, -, -, -, -, -, -, -, ho1, ho2, ho3⟩ := h
  unfold Parse
  rw [Format_data t hv]
  simp only [List.nil_append]
  rw [parseRFC3339_dateTime t hv, parse_dateTime t hv, (zone_strict _ ho1 ho2 ho3).2,
    (zone_strict _ ho1 ho2 ho3).1, (zone_general _ ho1 ho2 ho3).2, (zone_general _ ho1 ho2 ho3).1,
    if_pos ho]
  by_cases h24 : t.offset.natAbs < 86400
  · rw [if_pos h24]
  · rw [if_neg h24]

/-- The `RFC3339` text of a valid time whose zone offset is 25 hours ends in
`+25:00` or `-25:00` and is refused by `time.Parse`. -/
theorem Parse_Format_25 (t : Time) (h : t.Valid) (ho : ¬ t.offset.natAbs < 90000) (layout : Layout) :
    (Parse layout (t.Format Layout.RFC3339)).1 = Time.zero ∧
    (Parse layout (t.Format Layout.RFC3339)).2 ≠ none ∧
    ((t.Format Layout.RFC3339).data.drop 19 = ['+', '2', '5', ':', '0', '0'] ∨
      (t.Format Layout.RFC3339).data.drop 19 = ['-', '2', '5', ':', '0', '0']) := by
  have hv := h
  obtain ⟨-, -, -, -, -, -, -, -, -, ho1, ho2, ho3⟩ := h
  have h24 : ¬ t.offset.natAbs < 86400 := by omega
  unfold Parse
  rw [Format_data t hv]
  simp only [List.nil_append]
  rw [parseRFC3339_dateTime t hv, parse_dateTime t hv, (zone_strict _ ho1 ho2 ho3).2,
    (zone_general _ ho1 ho2 ho3).2, if_neg ho, if_neg h24]
  refine ⟨rfl, by simp, ?_⟩
  have hd : ∀ z : List Char, (dateTime t ++ z).drop 19 = z := fun z => rfl
  rw [hd]
  have hcase : t.offset = 90000 ∨ t.offset = -90000 := by omega
  rcases hcase with e | e
  · rw [e]; exact Or.inl (by decide)
  · rw [e]; exact Or.inr (by decide)

theorem parseUint_bounds {s : List Char} {lo hi x : Nat} (h : parseUint s lo hi = some x) :
    lo ≤ x ∧ x ≤ hi := by
  unfold parseUint at h
  split at h
  · simp only [] at h
    split at h
    · rename_i hb
      cases h
      exact hb
    · cases h
  · cases h

theorem digit_le_nine {c : Char} (h : isDigit c = true) : c.toNat - 48 ≤ 9 := by
  unfold isDigit at h
  simp only [Bool.and_eq_true, decide_eq_true_eq] at h
  have h2 : c.val ≤ ('9' : Char).val := h.2
  have h3 : c.val.toNat ≤ 57 := h2
  show c.val.toNat - 48 ≤ 9
  omega

theorem foldl_digits_lt (ds : List Char) (hd : ∀ c ∈ ds, isDigit c = true) (acc : Nat) :
    ds.foldl (fun x c => x * 10 + (c.toNat - 48)) acc + 1 ≤ (acc + 1) * 10 ^ ds.length := by
  induction ds generalizing acc with
  | nil => simp
  | cons c cs ih =>
    have hc := digit_le_nine (hd c (List.mem_cons_self _ _))
    have h1 := ih (fun c hc => hd c (List.mem_cons_of_mem _ hc)) (acc * 10 + (c.toNat - 48))
    rw [List.foldl_cons, List.length_cons, pow_succ]
    have h2 : (acc * 10 + (c.toNat - 48) + 1) * 10 ^ cs.length ≤ ((acc + 1) * 10) * 10 ^ cs.length :=
      Nat.mul_le_mul_right _ (by omega)
    calc _ ≤ _ := h1
      _ ≤ _ := h2
      _ = _ := by ring

theorem parseNanoseconds_le (ds : List Char) (hd : ∀ c ∈ ds, isDigit c = true) :
    parseNanoseconds ds ≤ 999999999 := by
  unfold parseNanoseconds
  dsimp only
  have hlen : (ds.take 9).length ≤ 9 := by simp
  have h1 := foldl_digits_lt (ds.take 9) (fun c hc => hd c (List.mem_of_mem_take hc)) 0
  generalize (ds.take 9).foldl (fun x c => x * 10 + (c.toNat - 48)) 0 = x at h1
  generalize (ds.take 9).length = n at h1 hlen
  simp only [zero_add, one_mul] at h1
  have h2 : (x + 1) * 10 ^ (9 - n) ≤ 10 ^ n * 10 ^ (9 - n) := Nat.mul_le_mul_right _ h1
  rw [← pow_add, show n + (9 - n) = 9 by omega] at h2
  have h3 : 0 < 10 ^ (9 - n) := by positivity
  have h4 : (x + 1) * 10 ^ (9 - n) = x * 10 ^ (9 - n) + 10 ^ (9 - n) := by ring
  have h5 : (10 : Nat) ^ 9 = 1000000000 := by norm_num
  omega

theorem parseFrac_le (s : List Char) : (parseFrac s).1 ≤ 999999999 := by
  unfold parseFrac
  split
  · rename_i d rest
    split
    · rename_i hdig
      apply parseNanoseconds_le
      intro c hc
      rcases List.mem_cons.1 hc with rfl | hc
      · exact hdig
      · exact (List.mem_takeWhile_imp hc)
    · exact Nat.zero_le _
  · exact Nat.zero_le _

theorem parseZone_bounds {s : List Char} {o : Int} (h : parseZone s = some o) :
    o % 60 = 0 ∧ -86400 < o ∧ o < 86400 := by
  unfold parseZone at h
  split at h
  · cases h; decide
  · split at h
    · rename_i hr mm h1 h2
      have b1 := parseUint_bounds h1
      have b2 := parseUint_bounds h2
      split at h
      · cases h
        split <;> omega
      · cases h
    · cases h
  · cases h

/-- Every time that `parseRFC3339` accepts is valid. -/
theorem parseRFC3339_valid {s : List Char} {t : Time} (h : parseRFC3339 s = some t) : t.Valid := by
  unfold parseRFC3339 at h
  split at h
  · split at h
    · rename_i year month hy hm
      split at h
      · rename_i day hour min sec hd hh hmi hs
        split at h
        · split at h
          · rename_i offset ho
            cases h
            have by1 := parseUint_bounds hy
            have bm := parseUint_bounds hm
            have bd := parseUint_bounds hd
            have bh := parseUint_bounds hh
            have bmi := parseUint_bounds hmi
            have bs := parseUint_bounds hs
            have bo := parseZone_bounds ho
            have b1 : (-90000 : Int) ≤ offset := by omega
            have b2 : offset ≤ (90000 : Int) := by omega
            exact ⟨by1.2, bm.1, bm.2, bd.1, bd.2, bh.2, bmi.2, bs.2, parseFrac_le _, bo.1, b1, b2⟩
          · cases h
        · cases h
      · cases h
    · cases h
  · cases h

theorem parseFracGeneral_le (s : List Char) : (parseFracGeneral s).1 ≤ 999999999 := by
  unfold parseFracGeneral
  split
  · rename_i d rest
    split
    · rename_i hdig
      apply parseNanoseconds_le
      intro c hc
      rcases List.mem_cons.1 hc with rfl | hc
      · exact hdig.2
      · exact (List.mem_takeWhile_imp hc)
    · exact Nat.zero_le _
  · exact Nat.zero_le _

theorem parseZoneGeneral_bounds {s v : List Char} {o : Int} (h : parseZoneGeneral s = some (o, v)) :
    o % 60 = 0 ∧ -90000 ≤ o ∧ o ≤ 90000 := by
  unfold parseZoneGeneral at h
  split at h
  · cases h; decide
  · split at h
    · split at h
      · rename_i hr x mm y h1 h2
        split at h
        · rename_i hb
          split at h
          · cases h; omega
          · split at h
            · cases h; omega
            · cases h
        · cases h
      · cases h
    · cases h
  · cases h

theorem parseYear_le {s v : List Char} {y : Nat} (h : parseYear s = some (y, v)) : y ≤ 9999 := by
  unfold parseYear at h
  split at h
  · rename_i y1 y2 y3 y4 rest
    split at h
    · rename_i hall
      cases h
      have h1 := foldl_digits_lt [y1, y2, y3, y4] (fun c hc => List.all_eq_true.1 hall c hc) 0
      have h2 : (0 + 1) * 10 ^ [y1, y2, y3, y4].length = 10000 := by norm_num
      omega
    · cases h
  · cases h

/-- Every time that the general parser accepts is valid. -/
theorem parse_valid {s : List Char} {t : Time} (h : parse s = some t) : t.Valid := by
  unfold parse at h
  split at h
  · cases h
  · rename_i year v0 hy
    split at h
    · cases h
    · split at h
      · cases h
      · rename_i hmonth
        split at h
        · cases h
        · split at h
          · cases h
          · split at h
            · cases h
            · rename_i hhour
              split at h
              · cases h
              · split at h
                · cases h
                · rename_i hmin
                  split at h
                  · cases h
                  · split at h
                    · cases h
                    · rename_i hsec
                      split at h
                      · rename_i offset hz
                        split at h
                        · cases h
                        · rename_i hday
                          cases h
                          have bo := parseZoneGeneral_bounds hz
                          have by1 := parseYear_le hy
                          unfold Time.Valid
                          dsimp only
                          exact ⟨by1, by omega, by omega, by omega, by omega, by omega, by omega,
                            by omega, parseFracGeneral_le _, bo.1, bo.2.1, bo.2.2⟩
                      · cases h

theorem zero_valid : Time.zero.Valid := by decide

/-- Every time that `time.Parse` returns is valid. -/
theorem Parse_valid (layout : Layout) (value : String) : (Parse layout value).1.Valid := by
  unfold Parse
  split
  · rename_i t hp
    exact parseRFC3339_valid hp
  · split
    · rename_i t hp
      exact parse_valid hp
    · exact zero_valid

/-- A time that `time.Parse` returns without error is a parsed one; with an
error it is the zero time. -/
theorem Parse_error (layout : Layout) (value : String) :
    (Parse layout value).2 ≠ none → (Parse layout value).1 = Time.zero := by
  unfold Parse
  split
  · intro h; exact absurd rfl h
  · split
    · intro h; exact absurd rfl h
    · intro _; rfl

theorem lastDigits_isDigit (x w : Nat) : ∀ c ∈ lastDigits x w, isDigit c = true := by
  induction w generalizing x with
  | zero => intro c hc; cases hc
  | succ w ih =>
    intro c hc
    unfold lastDigits at hc
    rcases List.mem_append.1 hc with hc | hc
    · exact ih _ c hc
    · rw [List.mem_singleton] at hc
      rw [hc]
      exact isDigit_digitChar x

theorem lastDigits_length (x w : Nat) : (lastDigits x w).length = w := by
  induction w generalizing x with
  | zero => rfl
  | succ w ih =>
    unfold lastDigits
    rw [List.length_append, ih]
    rfl

/-- The digits written for `x` denote `x` modulo the power of ten. -/
theorem lastDigits_value (x w : Nat) :
    (lastDigits x w).foldl (fun x c => x * 10 + (c.toNat - 48)) 0 = x % 10 ^ w := by
  induction w generalizing x with
  | zero => simp [lastDigits, Nat.mod_one]
  | succ w ih =>
    unfold lastDigits
    rw [List.foldl_append, ih, List.foldl_cons, List.foldl_nil, toNat_digitChar, pow_succ,
      Nat.mul_comm (10 ^ w) 10, Nat.mod_mul]
    omega

/-- A digit string is its trimmed part followed by zeros. -/
theorem trimZeros_append (l : List Char) :
    ∃ k, l = trimZeros l ++ List.replicate k '0' := by
  unfold trimZeros
  have key : ∀ r : List Char, ∃ k, r = List.replicate k '0' ++ r.dropWhile (fun c => c == '0') := by
    intro r
    induction r with
    | nil => exact ⟨0, rfl⟩
    | cons c cs ih =>
      by_cases hc : c = '0'
      · obtain ⟨k, hk⟩ := ih
        refine ⟨k + 1, ?_⟩
        subst hc
        rw [List.dropWhile_cons_of_pos (by rfl), List.replicate_succ, List.cons_append, ← hk]
      · refine ⟨0, ?_⟩
        rw [List.dropWhile_cons_of_neg (by simpa using hc)]
        rfl
  obtain ⟨k, hk⟩ := key l.reverse
  refine ⟨k, ?_⟩
  have h2 := congrArg List.reverse hk
  rw [List.reverse_reverse, List.reverse_append, List.reverse_replicate] at h2
  exact h2

theorem foldl_replicate_zero (k acc : Nat) :
    (List.replicate k '0').foldl (fun x c => x * 10 + (c.toNat - 48)) acc = acc * 10 ^ k := by
  induction k generalizing acc with
  | zero => simp
  | succ k ih =>
    rw [List.replicate_succ, List.foldl_cons, ih, pow_succ]
    have e : ('0' : Char).toNat - 48 = 0 := by decide
    rw [e]
    ring

/-- The trimmed digits of a non-zero nanosecond count are read back by
`parseNanoseconds` as that count. -/
theorem parseNanoseconds_trimZeros (n : Nat) (h0 : n ≠ 0) (hn : n ≤ 999999999) :
    trimZeros (appendInt n 9) ≠ [] ∧
    (∀ c ∈ trimZeros (appendInt n 9), isDigit c = true) ∧
    parseNanoseconds (trimZeros (appendInt n 9)) = n := by
  have h9 : n < 10 ^ 9 := by norm_num; omega
  have ea : appendInt n 9 = lastDigits n 9 := by rw [appendInt, if_pos h9]
  rw [ea]
  obtain ⟨k, hk⟩ := trimZeros_append (lastDigits n 9)
  have hlen : (trimZeros (lastDigits n 9)).length + k = 9 := by
    have := congrArg List.length hk
    rw [lastDigits_length, List.length_append, List.length_replicate] at this
    omega
  have hval : (trimZeros (lastDigits n 9)).foldl (fun x c => x * 10 + (c.toNat - 48)) 0 * 10 ^ k
      = n := by
    have h1 := lastDigits_value n 9
    rw [hk, List.foldl_append, foldl_replicate_zero, Nat.mod_eq_of_lt h9] at h1
    exact h1
  have hdig : ∀ c ∈ trimZeros (lastDigits n 9), isDigit c = true := by
    intro c hc
    apply lastDigits_isDigit n 9
    rw [hk]
    exact List.mem_append_left _ hc
  refine ⟨?_, hdig, ?_⟩
  · intro he
    rw [he] at hval
    simp at hval
    exact h0 hval.symm
  · unfold parseNanoseconds
    dsimp only
    have ht : (trimZeros (lastDigits n 9)).take 9 = trimZeros (lastDigits n 9) :=
      List.take_of_length_le (by omega)
    rw [ht, show 9 - (trimZeros (lastDigits n 9)).length = k by omega]
    exact hval

theorem parseFrac_zone (o : Int) : parseFrac (appendZone o) = (0, appendZone o) := by
  unfold appendZone
  split
  · rfl
  · simp only []
    split <;> rfl

/-- The zone text starts with a character that is no digit. -/
theorem appendZone_head (o : Int) :
    ∃ z zs, appendZone o = z :: zs ∧ isDigit z = false := by
  unfold appendZone
  split
  · exact ⟨'Z', [], rfl, by decide⟩
  · simp only []
    split
    · exact ⟨'-', _, rfl, by decide⟩
    · exact ⟨'+', _, rfl, by decide⟩

/-- The fractional second written by `appendNano`, followed by the zone, is
read back by `parseFrac`. -/
theorem parseFrac_appendNano (n : Nat) (hn : n ≤ 999999999) (o : Int) :
    parseFrac (appendNano n ++ appendZone o) = (n, appendZone o) := by
  unfold appendNano
  by_cases h0 : n = 0
  · rw [if_pos h0, List.nil_append, h0]
    exact parseFrac_zone o
  · rw [if_neg h0]
    obtain ⟨hne, hdig, hval⟩ := parseNanoseconds_trimZeros n h0 hn
    obtain ⟨z, zs, hz, hzd⟩ := appendZone_head o
    cases hds : trimZeros (appendInt n 9) with
    | nil => exact absurd hds hne
    | cons d ds =>
      rw [hds] at hdig hval
      have hd : isDigit d = true := hdig d (List.mem_cons_self _ _)
      have hds2 : ∀ a ∈ ds, isDigit a = true := fun a ha => hdig a (List.mem_cons_of_mem _ ha)
      have ht : List.takeWhile isDigit (ds ++ appendZone o) = ds := by
        rw [List.takeWhile_append_of_pos hds2, hz, List.takeWhile_cons_of_neg (by simp [hzd])]
        simp
      have hdr : List.dropWhile isDigit (ds ++ appendZone o) = appendZone o := by
        rw [List.dropWhile_append_of_pos hds2, hz, List.dropWhile_cons_of_neg (by simp [hzd])]
      simp only [List.cons_append, parseFrac]
      rw [if_pos hd, ht, hdr, hval]

/-- Reading back the `RFC3339Nano` text of a valid time whose zone offset is
below 24 hours gives the time itself, fractional second included. -/
theorem Parse_Format_Nano (t : Time) (h : t.Valid) (ho : t.offset.natAbs < 86400) (layout : Layout) :
    Parse layout (t.Format Layout.RFC3339Nano) = (t, none) := by
  have hv := h
  obtain ⟨-, -, -, -, -, -, -, -, hns, ho1, ho2, ho3⟩ := h
  unfold Parse
  rw [Format_data t hv]
  simp only []
  rw [parseRFC3339_dateTime t hv, parseFrac_appendNano t.nsec hns]
  have hz := (zone_strict _ ho1 ho2 ho3).2
  rw [parseFrac_zone, if_pos ho] at hz
  simp only [hz]

end time

namespace json

open main (Slice)

theorem UnmarshalTime_valid {t t1 : time.Time} {v : Value} (ht : t.Valid)
    (h : UnmarshalTime t v = .ok t1) : t1.Valid := by
  unfold UnmarshalTime at h
  split at h
  · cases h; exact ht
  · rename_i s
    split at h
    · rename_i t2 hp
      cases h
      have hv := time.Parse_valid time.Layout.RFC3339 s
      rw [hp] at hv
      exact hv
    · cases h
  · cases h

theorem decodeMember_valid {st st1 : decodeState} {k : String} {v : Value}
    (ht : st.task.DueDate.Valid) (h : decodeMember st k v = .ok st1) : st1.task.DueDate.Valid := by
  unfold decodeMember at h
  split at h
  · cases h; exact ht
  · split at h
    · cases h; exact ht
    · cases h; exact ht
    · cases h
      unfold decodeState.saveError
      split <;> exact ht
  · split at h
    · rename_i hu
      cases h
      exact UnmarshalTime_valid ht hu
    · cases h

theorem decodeObject_valid (members : List (String × Value)) {st st1 : decodeState}
    (ht : st.task.DueDate.Valid) (h : decodeObject st members = .ok st1) :
    st1.task.DueDate.Valid := by
  induction members generalizing st with
  | nil => cases h; exact ht
  | cons kv rest ih =>
    obtain ⟨k, v⟩ := kv
    unfold decodeObject at h
    split at h
    · rename_i st2 hm
      exact ih (decodeMember_valid ht hm) h
    · cases h

/-- Every task that `Decode` returns has a valid due date. -/
theorem Decode_valid {body : Body} {t : main.Task} (h : Decode body = .ok t) : t.DueDate.Valid := by
  unfold Decode at h
  split at h
  · cases h
  · cases h; exact time.zero_valid
  · split at h
    · rename_i st hd
      split at h
      · cases h
      · cases h
        exact decodeObject_valid _ time.zero_valid hd
    · cases h
  · cases h

theorem zoneHour_iff (o : Int) :
    24 ≤ (Int.tdiv o 60).natAbs / 60 ↔ 86400 ≤ o.natAbs := by
  rw [Int.natAbs_tdiv]
  have : (o.natAbs).div (Int.natAbs 60) = o.natAbs / 60 := rfl
  rw [this]
  omega

/-- `Time.MarshalJSON` accepts a valid time whose zone offset is below 24 hours. -/
theorem MarshalTime_ok {t : time.Time} (h : t.Valid) (ho : t.offset.natAbs < 86400) :
    MarshalTime t = .ok (.string (t.Format time.Layout.RFC3339Nano)) := by
  obtain ⟨hy, -, -, -, -, -, -, -, -, -, -, -⟩ := h
  unfold MarshalTime
  have h1 : ¬ (9999 < t.year) := by omega
  have h2 : ¬ (t.offset ≠ 0 ∧ 24 ≤ (Int.tdiv t.offset 60).natAbs / 60) := by
    rw [zoneHour_iff]; omega
  rw [if_neg h1, if_neg h2]

/-- `Time.MarshalJSON` refuses a valid time whose zone offset is 24 hours or more. -/
theorem MarshalTime_error {t : time.Time} (h : t.Valid) (ho : 86400 ≤ t.offset.natAbs) :
    MarshalTime t = .error "Time.MarshalJSON: timezone hour outside of range [0,23]" := by
  obtain ⟨hy, -, -, -, -, -, -, -, -, -, -, -⟩ := h
  unfold MarshalTime
  have h1 : ¬ (9999 < t.year) := by omega
  have h2 : t.offset ≠ 0 ∧ 24 ≤ (Int.tdiv t.offset 60).natAbs / 60 := by
    rw [zoneHour_iff]; omega
  rw [if_neg h1, if_pos h2]

theorem MarshalTask_ok {t : main.Task} (h : t.DueDate.Valid) (ho : t.DueDate.offset.natAbs < 86400) :
    MarshalTask t = .ok (taskDoc t) := by
  unfold MarshalTask
  rw [MarshalTime_ok h ho]
  rfl

theorem MarshalTask_error {t : main.Task} (h : t.DueDate.Valid)
    (ho : 86400 ≤ t.DueDate.offset.natAbs) :
    MarshalTask t = .error ("json: error calling MarshalJSON for type time.Time: "
      ++ "Time.MarshalJSON: timezone hour outside of range [0,23]") := by
  unfold MarshalTask
  rw [MarshalTime_error h ho]

theorem MarshalTaskList_ok (l : List main.Task)
    (h : ∀ t ∈ l, t.DueDate.Valid ∧ t.DueDate.offset.natAbs < 86400) :
    MarshalTaskList l = .ok (l.map taskDoc) := by
  induction l with
  | nil => rfl
  | cons t rest ih =>
    unfold MarshalTaskList
    rw [MarshalTask_ok (h t (List.mem_cons_self _ _)).1 (h t (List.mem_cons_self _ _)).2,
      ih (fun x hx => h x (List.mem_cons_of_mem _ hx))]
    rfl

theorem MarshalTaskList_error (l : List main.Task) (hv : ∀ t ∈ l, t.DueDate.Valid)
    (h : ∃ t ∈ l, 86400 ≤ t.DueDate.offset.natAbs) :
    ∃ e, MarshalTaskList l = .error e := by
  induction l with
  | nil => obtain ⟨t, ht, -⟩ := h; cases ht
  | cons t rest ih =>
    unfold MarshalTaskList
    cases h1 : MarshalTask t with
    | error e => cases MarshalTaskList rest <;> exact ⟨e, rfl⟩
    | ok v =>
      have hrest : ∃ x ∈ rest, 86400 ≤ x.DueDate.offset.natAbs := by
        obtain ⟨x, hx, hbad⟩ := h
        rcases List.mem_cons.1 hx with rfl | hx
        · rw [MarshalTask_error (hv x (List.mem_cons_self _ _)) hbad] at h1
          cases h1
        · exact ⟨x, hx, hbad⟩
      obtain ⟨e, he⟩ := ih (fun x hx => hv x (List.mem_cons_of_mem _ hx)) hrest
      exact ⟨e, by rw [he]⟩

theorem decodeMember_keeps_DueDate {st st1 : decodeState} {k : String} {v : Value}
    (hk : lookupField k ≠ some Field.DueDate) (h : decodeMember st k v = .ok st1) :
    st1.task.DueDate = st.task.DueDate := by
  unfold decodeMember at h
  split at h
  · cases h; rfl
  · split at h
    · cases h; rfl
    · cases h; rfl
    · cases h
      unfold decodeState.saveError
      split <;> rfl
  · rename_i hf
    exact absurd hf hk

theorem decodeMember_keeps_Title {st st1 : decodeState} {k : String} {v : Value}
    (hk : lookupField k ≠ some Field.Title) (h : decodeMember st k v = .ok st1) :
    st1.task.Title = st.task.Title := by
  unfold decodeMember at h
  split at h
  · cases h; rfl
  · rename_i hf
    exact absurd hf hk
  · split at h
    · cases h; rfl
    · cases h

theorem decodeObject_keeps_DueDate (members : List (String × Value)) {st st1 : decodeState}
    (hk : ∀ kv ∈ members, lookupField kv.1 ≠ some Field.DueDate)
    (h : decodeObject st members = .ok st1) : st1.task.DueDate = st.task.DueDate := by
  induction members generalizing st with
  | nil => cases h; rfl
  | cons kv rest ih =>
    obtain ⟨k, v⟩ := kv
    unfold decodeObject at h
    split at h
    · rename_i st2 hm
      rw [ih (fun x hx => hk x (List.mem_cons_of_mem _ hx)) h]
      exact decodeMember_keeps_DueDate (hk (k, v) (List.mem_cons_self _ _)) hm
    · cases h

theorem decodeObject_keeps_Title (members : List (String × Value)) {st st1 : decodeState}
    (hk : ∀ kv ∈ members, lookupField kv.1 ≠ some Field.Title)
    (h : decodeObject st members = .ok st1) : st1.task.Title = st.task.Title := by
  induction members generalizing st with
  | nil => cases h; rfl
  | cons kv rest ih =>
    obtain ⟨k, v⟩ := kv
    unfold decodeObject at h
    split at h
    · rename_i st2 hm
      rw [ih (fun x hx => hk x (List.mem_cons_of_mem _ hx)) h]
      exact decodeMember_keeps_Title (hk (k, v) (List.mem_cons_self _ _)) hm
    · cases h

theorem Decode_object {members : List (String × Value)} {t : main.Task}
    (h : Decode (Body.value (Value.object members)) = .ok t) :
    ∃ st, decodeObject ⟨main.Task.zero, none⟩ members = .ok st ∧ st.task = t := by
  unfold Decode at h
  split at h
  · cases h
  · rename_i heq; cases heq
  · rename_i ms heq
    cases heq
    split at h
    · rename_i st hd
      split at h
      · cases h
      · cases h
        exact ⟨st, hd, rfl⟩
    · cases h
  · cases h

end json

namespace main

open http sql

theorem rowTask_valid (row : Row) : (rowTask row).DueDate.Valid := time.Parse_valid _ _

theorem listTasksLoop_ok (rows : List Row)
    (h : ∀ row ∈ rows, row.title ≠ Option.none ∧ row.due_date ≠ Option.none) (acc : Slice Task) :
    listTasksLoop rows acc = .ok ((rows.map rowTask).foldl Slice.append acc) := by
  induction rows generalizing acc with
  | nil => rfl
  | cons row rest ih =>
    obtain ⟨id, title, due⟩ := row
    have hr := h ⟨id, title, due⟩ (List.mem_cons_self _ _)
    cases title with
    | none => exact absurd rfl hr.1
    | some ti =>
      cases due with
      | none => exact absurd rfl hr.2
      | some d =>
        unfold listTasksLoop
        simp only [Row.Scan]
        rw [ih (fun x hx => h x (List.mem_cons_of_mem _ hx))]
        rfl

theorem foldl_append_mk (l acc : List Task) :
    l.foldl Slice.append (Slice.mk acc) = Slice.mk (acc ++ l) := by
  induction l generalizing acc with
  | nil => simp
  | cons t rest ih =>
    rw [List.foldl_cons]
    show List.foldl Slice.append (Slice.mk (acc ++ [t])) rest = _
    rw [ih]
    simp

theorem foldl_append_nil (t : Task) (l : List Task) :
    (t :: l).foldl Slice.append Slice.nil = Slice.mk (t :: l) := by
  rw [List.foldl_cons]
  show List.foldl Slice.append (Slice.mk [t]) l = _
  rw [foldl_append_mk]
  rfl

theorem MarshalTasks_rows (rows : List Row)
    (hm : ∀ row ∈ rows, (rowTask row).DueDate.offset.natAbs < 86400) :
    json.MarshalTasks ((rows.map rowTask).foldl Slice.append Slice.nil) = .ok (listDoc rows) := by
  cases rows with
  | nil => rfl
  | cons row rest =>
    rw [List.map_cons, foldl_append_nil]
    have hv : ∀ t ∈ (row :: rest).map rowTask,
        t.DueDate.Valid ∧ t.DueDate.offset.natAbs < 86400 := by
      intro t ht
      obtain ⟨x, hx, rfl⟩ := List.mem_map.1 ht
      exact ⟨rowTask_valid x, hm x hx⟩
    rw [← List.map_cons]
    unfold json.MarshalTasks
    simp only [json.MarshalTaskList_ok _ hv, listDoc, List.map_map]
    rfl

theorem MarshalTasks_rows_error (rows : List Row)
    (hm : ∃ row ∈ rows, 86400 ≤ (rowTask row).DueDate.offset.natAbs) :
    ∃ e, json.MarshalTasks ((rows.map rowTask).foldl Slice.append Slice.nil) = .error e := by
  cases rows with
  | nil => obtain ⟨row, hrow, -⟩ := hm; cases hrow
  | cons row rest =>
    rw [List.map_cons, foldl_append_nil, ← List.map_cons]
    have hv : ∀ t ∈ (row :: rest).map rowTask, t.DueDate.Valid := by
      intro t ht
      obtain ⟨x, -, rfl⟩ := List.mem_map.1 ht
      exact rowTask_valid x
    have hb : ∃ t ∈ (row :: rest).map rowTask, 86400 ≤ t.DueDate.offset.natAbs := by
      obtain ⟨x, hx, hbad⟩ := hm
      exact ⟨rowTask x, List.mem_map.2 ⟨x, hx, rfl⟩, hbad⟩
    obtain ⟨e, he⟩ := json.MarshalTaskList_error _ hv hb
    refine ⟨e, ?_⟩
    unfold json.MarshalTasks
    simp only [he]

/-- The answer of `listTasksHandler` when the query succeeds, the iteration
delivers every row, and every row scans: what is written depends on whether
the task list can be marshalled. -/
theorem listTasksHandler_scanned (f : Faults) (r : Request) (db : DB)
    (hq : f.query = Option.none) (hn : f.next = Option.none)
    (h : ∀ row ∈ db.tasks, row.title ≠ Option.none ∧ row.due_date ≠ Option.none) :
    listTasksHandler f ResponseWriter.fresh r db =
      ((match json.MarshalTasks ((db.tasks.map rowTask).foldl Slice.append Slice.nil) with
        | .ok doc => ⟨[("Content-Type", "application/json")], some 200, [Chunk.json doc]⟩
        | .error _ => ⟨[("Content-Type", "application/json")], Option.none, []⟩),
        { db with log := db.log ++ [Stmt.select] }) := by
  unfold listTasksHandler DB.Query
  simp only [hq, hn]
  rw [listTasksLoop_ok _ h]
  simp only []
  cases json.MarshalTasks ((db.tasks.map rowTask).foldl Slice.append Slice.nil) <;> rfl

/-- The answer of `listTasksHandler` when moreover every listed due date has
a zone offset below 24 hours. -/
theorem listTasksHandler_ok (f : Faults) (r : Request) (db : DB)
    (hq : f.query = Option.none) (hn : f.next = Option.none)
    (h : ∀ row ∈ db.tasks, row.title ≠ Option.none ∧ row.due_date ≠ Option.none)
    (hm : ∀ row ∈ db.tasks, (rowTask row).DueDate.offset.natAbs < 86400) :
    listTasksHandler f ResponseWriter.fresh r db =
      (⟨[("Content-Type", "application/json")], some 200, [Chunk.json (listDoc db.tasks)]⟩,
        { db with log := db.log ++ [Stmt.select] }) := by
  rw [listTasksHandler_scanned f r db hq hn h, MarshalTasks_rows _ hm]

/-- The answer of `listTasksHandler` when some listed due date has a zone
offset of 24 hours or more: nothing is written. -/
theorem listTasksHandler_unmarshalled (f : Faults) (r : Request) (db : DB)
    (hq : f.query = Option.none) (hn : f.next = Option.none)
    (h : ∀ row ∈ db.tasks, row.title ≠ Option.none ∧ row.due_date ≠ Option.none)
    (hm : ∃ row ∈ db.tasks, 86400 ≤ (rowTask row).DueDate.offset.natAbs) :
    listTasksHandler f ResponseWriter.fresh r db =
      (⟨[("Content-Type", "application/json")], Option.none, []⟩,
        { db with log := db.log ++ [Stmt.select] }) := by
  obtain ⟨e, he⟩ := MarshalTasks_rows_error _ hm
  rw [listTasksHandler_scanned f r db hq hn h, he]

/-- The answer of `createTaskHandler` when decoding and the insert succeed:
the row is appended and status 201 is sent before the task is encoded. -/
theorem createTaskHandler_inserted (f : Faults) (r : Request) (db : DB) (t : Task)
    (hd : json.Decode r.body = .ok t) (he : f.exec = Option.none) :
    (createTaskHandler f ResponseWriter.fresh r db).2 =
      { tasks := db.tasks ++ [⟨max db.seq (maxRowid db.tasks) + 1, some t.Title,
            some (t.DueDate.Format time.Layout.RFC3339)⟩]
        seq := max db.seq (maxRowid db.tasks) + 1
        log := db.log ++ [Stmt.insert t.Title (t.DueDate.Format time.Layout.RFC3339)] } ∧
    (createTaskHandler f ResponseWriter.fresh r db).1.status = some 201 ∧
    (createTaskHandler f ResponseWriter.fresh r db).1.body =
      (match json.MarshalTask t with
        | .ok doc => [Chunk.json doc]
        | .error _ => []) := by
  unfold createTaskHandler DB.Exec
  simp only [hd, he]
  cases json.MarshalTask t <;> (refine ⟨?_, ?_, ?_⟩ <;> first | rfl | trivial)

/-- The answer of `createTaskHandler` when decoding fails. -/
theorem createTaskHandler_bad (f : Faults) (r : Request) (db : DB) (msg : String)
    (hd : json.Decode r.body = .error msg) :
    createTaskHandler f ResponseWriter.fresh r db =
      (⟨[("X-Content-Type-Options", "nosniff"), ("Content-Type", "text/plain; charset=utf-8")],
        some 400, [Chunk.line msg]⟩, db) := by
  unfold createTaskHandler
  simp only [hd]
  rfl

end main

namespace main

open http sql

theorem toList_foldl_append (l : List Task) : (l.foldl Slice.append Slice.nil).toList = l := by
  cases l with
  | nil => rfl
  | cons t rest => rw [foldl_append_nil]; rfl

/-- C1 (as the code behaves): on the empty table with a succeeding query,
`listTasksHandler` answers HTTP 200 with `Content-Type: application/json`, and
the body is the JSON document `null`, because the nil slice `tasks` is
encoded; the body is not the empty array. -/
theorem listTasksHandler_empty_table_null (r : Request) :
    (listTasksHandler Faults.none ResponseWriter.fresh r DB.empty).1.status = some 200 ∧
    (listTasksHandler Faults.none ResponseWriter.fresh r DB.empty).1.header
      = [("Content-Type", "application/json")] ∧
    (listTasksHandler Faults.none ResponseWriter.fresh r DB.empty).1.body
      = [Chunk.json json.Value.null] ∧
    (listTasksHandler Faults.none ResponseWriter.fresh r DB.empty).1.body
      ≠ [Chunk.json (json.Value.array [])] := by
  refine ⟨rfl, rfl, rfl, ?_⟩
  intro h
  have h1 : [Chunk.json json.Value.null] = [Chunk.json (json.Value.array [])] := h
  simp at h1

/-- C4: when decoding the request body fails with message `msg`,
`createTaskHandler` answers HTTP 400 with a plain-text body that is the one
line `msg`, and returns the storage exactly as it received it: the table is
unchanged and no statement, hence no INSERT, was sent. -/
theorem createTaskHandler_decode_error (f : Faults) (r : Request) (db : DB) (msg : String)
    (hd : json.Decode r.body = .error msg) :
    (createTaskHandler f ResponseWriter.fresh r db).1.status = some 400 ∧
    (createTaskHandler f ResponseWriter.fresh r db).1.body = [Chunk.line msg] ∧
    ("Content-Type", "text/plain; charset=utf-8")
      ∈ (createTaskHandler f ResponseWriter.fresh r db).1.header ∧
    (createTaskHandler f ResponseWriter.fresh r db).2 = db := by
  rw [createTaskHandler_bad f r db msg hd]
  exact ⟨rfl, rfl, by simp, rfl⟩

theorem createTaskHandler_decode_error_witness :
    json.Decode (Request.mk "POST" "/tasks" [] (Body.syntaxError "unexpected EOF")).body
      = .error "unexpected EOF" ∧
    (createTaskHandler Faults.none ResponseWriter.fresh
      (Request.mk "POST" "/tasks" [] (Body.syntaxError "unexpected EOF")) DB.empty).1.status
      = some 400 :=
  ⟨rfl, (createTaskHandler_decode_error Faults.none
    (Request.mk "POST" "/tasks" [] (Body.syntaxError "unexpected EOF")) DB.empty
    "unexpected EOF" rfl).1⟩

/-- C6: for every request and every storage state, `helloWorldHandler`
answers HTTP 200 with the header `Content-Type: application/json` and a body
that is exactly the JSON document `{"message":"hello world"}`; it returns
the storage as it received it, having sent no statement, and the answer does
not depend on the storage. -/
theorem helloWorldHandler_response (f : Faults) (r : Request) (db : DB) :
    (helloWorldHandler f ResponseWriter.fresh r db).1.status = some 200 ∧
    (helloWorldHandler f ResponseWriter.fresh r db).1.header
      = [("Content-Type", "application/json")] ∧
    (helloWorldHandler f ResponseWriter.fresh r db).1.body
      = [Chunk.json (json.Value.object [("message", json.Value.string "hello world")])] ∧
    (helloWorldHandler f ResponseWriter.fresh r db).2 = db :=
  ⟨rfl, rfl, rfl, rfl⟩

/-- C8 (as the code behaves): when the iteration over the result set stops
with an error after the first of two rows, `listTasksHandler` does not answer
HTTP 500: `rows.Err()` is never read, so it answers HTTP 200 with the partial
list holding the first row only. -/
theorem listTasksHandler_iteration_error_partial (r : Request) :
    (listTasksHandler ⟨Option.none, Option.none, some (1, "database disk image is malformed")⟩
      ResponseWriter.fresh r
      ⟨[⟨1, some "a", some "2024-02-29T10:20:30Z"⟩, ⟨2, some "b", some "2024-03-01T00:00:00Z"⟩], 2, []⟩).1.status
      = some 200 ∧
    (listTasksHandler ⟨Option.none, Option.none, some (1, "database disk image is malformed")⟩
      ResponseWriter.fresh r
      ⟨[⟨1, some "a", some "2024-02-29T10:20:30Z"⟩, ⟨2, some "b", some "2024-03-01T00:00:00Z"⟩], 2, []⟩).1.body
      = [Chunk.json (json.Value.array [json.Value.object
          [("title", json.Value.string "a"), ("due_date", json.Value.string "2024-02-29T10:20:30Z")]])] :=
  ⟨rfl, rfl⟩

end main

namespace main

open http sql

/-- C3 (refuted as stated): the body `{"title":"x"}` is well-formed JSON with
no `due_date`; `createTaskHandler` answers HTTP 201, not 400, and inserts the
row `(x, 0001-01-01T00:00:00Z)`, so the table grows from no row to one. -/
theorem create_missing_due_date_inserts :
    json.lookupField "title" ≠ some json.Field.DueDate ∧
    (createTaskHandler Faults.none ResponseWriter.fresh
      (Request.mk "POST" "/tasks" [] (Body.value (json.Value.object [("title", json.Value.string "x")])))
      DB.empty).1.status = some 201 ∧
    (createTaskHandler Faults.none ResponseWriter.fresh
      (Request.mk "POST" "/tasks" [] (Body.value (json.Value.object [("title", json.Value.string "x")])))
      DB.empty).2.tasks = [⟨1, some "x", some "0001-01-01T00:00:00Z"⟩] ∧
    DB.empty.tasks = [] :=
  ⟨by decide, rfl, rfl, rfl⟩

/-- C3 (amended): for a request body that is a JSON object whose members
decode, `createTaskHandler` does not reject a missing field.  A field that
no member selects keeps its zero value (the empty title, the zero timestamp);
when the insert succeeds the handler answers HTTP 201 and appends one row, so
the row count grows by one. -/
theorem create_missing_field_zero_value (f : Faults) (r : Request) (db : DB)
    (members : List (String × json.Value)) (t : Task)
    (hb : r.body = Body.value (json.Value.object members))
    (hd : json.Decode r.body = .ok t) (he : f.exec = Option.none) :
    ((∀ kv ∈ members, json.lookupField kv.1 ≠ some json.Field.Title) → t.Title = "") ∧
    ((∀ kv ∈ members, json.lookupField kv.1 ≠ some json.Field.DueDate) →
      t.DueDate = time.Time.zero) ∧
    (createTaskHandler f ResponseWriter.fresh r db).1.status = some 201 ∧
    (createTaskHandler f ResponseWriter.fresh r db).2.tasks
      = db.tasks ++ [⟨max db.seq (maxRowid db.tasks) + 1, some t.Title,
          some (t.DueDate.Format time.Layout.RFC3339)⟩] ∧
    (createTaskHandler f ResponseWriter.fresh r db).2.tasks.length = db.tasks.length + 1 := by
  rw [hb] at hd
  obtain ⟨st, hst, rfl⟩ := json.Decode_object hd
  rw [← hb] at hd
  obtain ⟨hdb, hstatus, -⟩ := createTaskHandler_inserted f r db _ hd he
  rw [hdb]
  refine ⟨?_, ?_, hstatus, rfl, by simp⟩
  · intro hk
    exact json.decodeObject_keeps_Title members hk hst
  · intro hk
    exact json.decodeObject_keeps_DueDate members hk hst

theorem create_missing_field_zero_value_witness :
    (Request.mk "POST" "/tasks" [] (Body.value (json.Value.object [("title", json.Value.string "x")]))).body
      = Body.value (json.Value.object [("title", json.Value.string "x")]) ∧
    json.Decode (Request.mk "POST" "/tasks" [] (Body.value (json.Value.object
      [("title", json.Value.string "x")]))).body = .ok ⟨"x", time.Time.zero⟩ ∧
    Faults.none.exec = Option.none ∧
    (createTaskHandler Faults.none ResponseWriter.fresh
      (Request.mk "POST" "/tasks" [] (Body.value (json.Value.object [("title", json.Value.string "x")])))
      DB.empty).2.tasks.length = DB.empty.tasks.length + 1 :=
  ⟨rfl, rfl, rfl, (create_missing_field_zero_value Faults.none
    (Request.mk "POST" "/tasks" [] (Body.value (json.Value.object [("title", json.Value.string "x")])))
    DB.empty [("title", json.Value.string "x")] ⟨"x", time.Time.zero⟩ rfl rfl rfl).2.2.2.2⟩

theorem helloWorldHandler_tasks (f : Faults) (w : ResponseWriter) (r : Request) (db : DB) :
    (helloWorldHandler f w r db).2 = db := rfl

theorem listTasksHandler_tasks (f : Faults) (w : ResponseWriter) (r : Request) (db : DB) :
    (listTasksHandler f w r db).2.tasks = db.tasks := by
  unfold listTasksHandler DB.Query
  cases f.query with
  | some e => rfl
  | none =>
    cases f.next with
    | none =>
      simp only []
      split <;> rfl
    | some ne =>
      obtain ⟨n, e⟩ := ne
      simp only []
      split <;> rfl

theorem createTaskHandler_tasks (f : Faults) (w : ResponseWriter) (r : Request) (db : DB) :
    (createTaskHandler f w r db).2.tasks = db.tasks ∨
    ∃ (t : Task) (id : Nat), t.DueDate.Valid ∧
      (createTaskHandler f w r db).2.tasks
        = db.tasks ++ [⟨id, some t.Title, some (t.DueDate.Format time.Layout.RFC3339)⟩] := by
  unfold createTaskHandler
  cases hd : json.Decode r.body with
  | error e => exact Or.inl rfl
  | ok t =>
    unfold DB.Exec
    cases f.exec with
    | some e => exact Or.inl rfl
    | none => exact Or.inr ⟨t, _, json.Decode_valid hd, rfl⟩

end main

namespace main

open http sql

theorem mux_eq : mux = ⟨[⟨"/tasks/list", Route.listTasksHandler⟩, ⟨"/tasks", Route.createTaskHandler⟩,
    ⟨"/", Route.helloWorldHandler⟩], [⟨"/", Route.helloWorldHandler⟩]⟩ := rfl

theorem isPrefixOf_slash (l : List Char) : List.isPrefixOf ['/'] l = true ↔ l.head? = some '/' := by
  cases l with
  | nil => simp
  | cons c cs =>
    simp only [List.isPrefixOf, Bool.and_true, beq_iff_eq, List.head?_cons, Option.some.injEq]
    exact eq_comm

theorem mux_handler (path : String) :
    mux.handler path =
      if path = "/tasks/list" then Target.handler Route.listTasksHandler
      else if path = "/tasks" then Target.handler Route.createTaskHandler
      else if path.data.head? = some '/' then Target.handler Route.helloWorldHandler
      else Target.NotFound := by
  unfold ServeMux.handler ServeMux.matchPath
  rw [mux_eq]
  by_cases h1 : path = "/tasks/list"
  · subst h1; rfl
  · by_cases h2 : path = "/tasks"
    · subst h2; rfl
    · by_cases h3 : path = "/"
      · subst h3; rfl
      · have e1 : ¬ ("/tasks/list" = path) := fun h => h1 h.symm
        have e2 : ¬ ("/tasks" = path) := fun h => h2 h.symm
        have e3 : ¬ ("/" = path) := fun h => h3 h.symm
        simp only [List.find?, e1, e2, e3, decide_False, h1, h2, if_false]
        by_cases h4 : path.data.head? = some '/'
        · have h5 : List.isPrefixOf ("/" : String).data path.data = true := (isPrefixOf_slash _).2 h4
          simp only [h5, h4, if_true]
        · have h5 : List.isPrefixOf ("/" : String).data path.data = false := by
            rw [Bool.eq_false_iff]
            exact fun h => h4 ((isPrefixOf_slash _).1 h)
          simp only [h5, h4, if_false]

end main

namespace main

open http sql

theorem append_slash_getLast (path : String) : (path ++ "/").data.getLast? = some '/' := by
  rw [String.data_append]
  simp

theorem mux_shouldRedirect (path : String) : mux.shouldRedirect path = false := by
  unfold ServeMux.shouldRedirect
  rw [mux_eq]
  have e1 : ¬ ("/tasks/list" = path ++ "/") := by
    intro h
    have h2 := append_slash_getLast path
    rw [← h] at h2
    revert h2
    decide
  have e2 : ¬ ("/tasks" = path ++ "/") := by
    intro h
    have h2 := append_slash_getLast path
    rw [← h] at h2
    revert h2
    decide
  by_cases h0 : path.length = 0
  · simp only [h0, if_true, ite_self]
  · have e3 : ¬ ("/" = path ++ "/") := by
      intro h
      have h2 : ("/" : String).data = (path ++ "/").data := congrArg String.data h
      rw [String.data_append] at h2
      have h3 : path.data = [] := by
        have h4 := congrArg List.length h2
        simp at h4
        exact List.length_eq_zero.1 h4
      exact h0 (by simp [String.length, h3])
    simp only [List.any_cons, List.any_nil, e1, e2, e3, decide_False, Bool.or_false, if_false,
      Bool.false_eq_true, ite_self]

theorem cleanPath_head (p : String) : (cleanPath p).data.head? = some '/' := by
  unfold cleanPath
  split
  · rfl
  · simp only []
    split <;> split <;> rfl

/-- How the mux of `main` answers a request. -/
theorem mux_Handler (r : Request) :
    mux.Handler r =
      if r.method ≠ "CONNECT" ∧ cleanPath r.path ≠ r.path then Target.Redirect (cleanPath r.path)
      else if r.path = "/tasks/list" then Target.handler Route.listTasksHandler
      else if r.path = "/tasks" then Target.handler Route.createTaskHandler
      else if r.path.data.head? = some '/' then Target.handler Route.helloWorldHandler
      else Target.NotFound := by
  unfold ServeMux.Handler
  simp only [mux_shouldRedirect, mux_handler, Bool.false_eq_true, if_false]
  by_cases hm : r.method = "CONNECT"
  · simp [hm]
  · by_cases hc : cleanPath r.path = r.path
    · simp [hm, hc]
    · simp [hm, hc]

end main

namespace main

open http sql

/-- C10 (refuted as stated): a request for `/foo`, which is none of the three
registered paths, is dispatched to `helloWorldHandler`; so is one for
`/tasks/`. -/
theorem dispatch_foo_reaches_hello :
    mux.Handler (Request.mk "GET" "/foo" [] (Body.syntaxError "EOF"))
      = Target.handler Route.helloWorldHandler ∧
    mux.Handler (Request.mk "GET" "/tasks/" [] (Body.syntaxError "EOF"))
      = Target.handler Route.helloWorldHandler ∧
    "/foo" ≠ "/" ∧ "/foo" ≠ "/tasks" ∧ "/foo" ≠ "/tasks/list" := by
  decide

/-- C10 (amended): with the routes registered in `main`, `createTaskHandler`
runs exactly when the path is `/tasks` and `listTasksHandler` exactly when it
is `/tasks/list`; `helloWorldHandler`, registered under the pattern `/` that
every rooted path starts with, runs for every other request whose path is in
canonical form (or, for a `CONNECT` request, begins with a slash).  The only
requests that reach none of the three handlers are those the mux answers
itself: a redirect for a path that is not canonical, and 404 for a `CONNECT`
path that does not begin with a slash. -/
theorem dispatch_by_pattern (r : Request) :
    (mux.Handler r = Target.handler Route.createTaskHandler ↔ r.path = "/tasks") ∧
    (mux.Handler r = Target.handler Route.listTasksHandler ↔ r.path = "/tasks/list") ∧
    (mux.Handler r = Target.handler Route.helloWorldHandler ↔
      r.path ≠ "/tasks" ∧ r.path ≠ "/tasks/list" ∧
      ((r.method = "CONNECT" ∧ r.path.data.head? = some '/') ∨
        (r.method ≠ "CONNECT" ∧ cleanPath r.path = r.path))) ∧
    ((∀ route, mux.Handler r ≠ Target.handler route) ↔
      ((r.method ≠ "CONNECT" ∧ cleanPath r.path ≠ r.path) ∨
        (r.method = "CONNECT" ∧ r.path.data.head? ≠ some '/'))) := by
  have c1 : cleanPath "/tasks" = "/tasks" := by decide
  have c2 : cleanPath "/tasks/list" = "/tasks/list" := by decide
  rw [mux_Handler]
  by_cases hl : r.path = "/tasks/list"
  · simp [hl, c2]
  · by_cases ht : r.path = "/tasks"
    · simp [ht, c1]
    · by_cases hm : r.method = "CONNECT"
      · by_cases hh : r.path.data.head? = some '/'
        · simp [hl, ht, hm, hh]
        · simp [hl, ht, hm, hh]
      · by_cases hc : cleanPath r.path = r.path
        · have hh : r.path.data.head? = some '/' := by
            rw [← hc]; exact cleanPath_head _
          simp [hl, ht, hm, hc, hh]
        · simp [hl, ht, hm, hc]

end main

namespace main

open http sql

/-- A failing query is answered with HTTP 500 and the error message. -/
theorem listTasksHandler_query_error (f : Faults) (r : Request) (db : DB) (e : String)
    (hq : f.query = some e) :
    (listTasksHandler f ResponseWriter.fresh r db).1.status = some 500 ∧
    (listTasksHandler f ResponseWriter.fresh r db).1.body = [Chunk.line e] := by
  unfold listTasksHandler DB.Query
  simp only [hq]
  exact ⟨rfl, rfl⟩

/-- A row that does not scan ends the loop with the scan error, whatever was
collected before. -/
theorem listTasksLoop_scan_error (pre post : List Row) (bad : Row) (e : String) (acc : Slice Task)
    (hpre : ∀ row ∈ pre, row.title ≠ Option.none ∧ row.due_date ≠ Option.none)
    (hbad : bad.Scan = .error e) :
    listTasksLoop (pre ++ bad :: post) acc = .error e := by
  induction pre generalizing acc with
  | nil =>
    unfold listTasksLoop
    simp only [List.nil_append, hbad]
  | cons row rest ih =>
    obtain ⟨id, title, due⟩ := row
    have hr := hpre ⟨id, title, due⟩ (List.mem_cons_self _ _)
    cases title with
    | none => exact absurd rfl hr.1
    | some ti =>
      cases due with
      | none => exact absurd rfl hr.2
      | some d =>
        rw [List.cons_append]
        unfold listTasksLoop
        simp only [Row.Scan]
        exact ih _ (fun x hx => hpre x (List.mem_cons_of_mem _ hx))

/-- A scan error is answered with HTTP 500 and the error message; no task is
written. -/
theorem listTasksHandler_scan_error (f : Faults) (r : Request) (db : DB) (e : String)
    (pre post : List Row) (bad : Row)
    (hq : f.query = Option.none) (hn : f.next = Option.none)
    (hrows : db.tasks = pre ++ bad :: post)
    (hpre : ∀ row ∈ pre, row.title ≠ Option.none ∧ row.due_date ≠ Option.none)
    (hbad : bad.Scan = .error e) :
    (listTasksHandler f ResponseWriter.fresh r db).1.status = some 500 ∧
    (listTasksHandler f ResponseWriter.fresh r db).1.body = [Chunk.line e] := by
  unfold listTasksHandler DB.Query
  simp only [hq, hn, hrows, listTasksLoop_scan_error pre post bad e Slice.nil hpre hbad]
  exact ⟨rfl, rfl⟩

end main

namespace main

open http sql

theorem rowTask_inserted (t : Task) (id : Nat) (hv : t.DueDate.Valid)
    (ho : t.DueDate.offset.natAbs < 90000) :
    rowTask ⟨id, some t.Title, some (t.DueDate.Format time.Layout.RFC3339)⟩
      = ⟨t.Title, { t.DueDate with nsec := 0 }⟩ := by
  unfold rowTask
  simp only [Option.getD_some]
  rw [time.Parse_Format _ hv ho]

/-- C5 (refuted as stated): a body whose `due_date` has the zone `+24:00`
decodes and is inserted, and the answer is HTTP 201, but `Time.MarshalJSON`
refuses the zone hour 24, the encoder's error is dropped, and the body is
empty instead of the JSON serialization of the task. -/
theorem create_zone_hour_24_empty_body :
    json.Decode (Body.value (json.Value.object [("title", json.Value.string "x"),
      ("due_date", json.Value.string "2024-01-01T00:00:00+24:00")]))
      = .ok ⟨"x", ⟨2024, 1, 1, 0, 0, 0, 0, 86400⟩⟩ ∧
    (createTaskHandler Faults.none ResponseWriter.fresh
      (Request.mk "POST" "/tasks" [] (Body.value (json.Value.object [("title", json.Value.string "x"),
        ("due_date", json.Value.string "2024-01-01T00:00:00+24:00")]))) DB.empty).2.tasks
      = [⟨1, some "x", some "2024-01-01T00:00:00+24:00"⟩] ∧
    (createTaskHandler Faults.none ResponseWriter.fresh
      (Request.mk "POST" "/tasks" [] (Body.value (json.Value.object [("title", json.Value.string "x"),
        ("due_date", json.Value.string "2024-01-01T00:00:00+24:00")]))) DB.empty).1.status = some 201 ∧
    (createTaskHandler Faults.none ResponseWriter.fresh
      (Request.mk "POST" "/tasks" [] (Body.value (json.Value.object [("title", json.Value.string "x"),
        ("due_date", json.Value.string "2024-01-01T00:00:00+24:00")]))) DB.empty).1.body = [] ∧
    json.MarshalTask ⟨"x", ⟨2024, 1, 1, 0, 0, 0, 0, 86400⟩⟩
      = .error ("json: error calling MarshalJSON for type time.Time: "
          ++ "Time.MarshalJSON: timezone hour outside of range [0,23]") :=
  ⟨rfl, rfl, rfl, rfl, rfl⟩

/-- C5 (amended): when the request body decodes to a task `t` and the insert
succeeds, `createTaskHandler` appends exactly one row, holding `t.Title` and
the `RFC3339` layout text of `t.DueDate`, after the existing rows, which stay
as they were whatever they hold; it sends that one INSERT and nothing else;
and it answers HTTP 201.  When the zone offset of `t.DueDate` is below 24
hours the body is the JSON serialization of `t`, whose `due_date` text is
RFC 3339 text that parses back to `t.DueDate`, fractional second included;
when the zone offset is 24 hours or more the body is empty. -/
theorem createTaskHandler_created (f : Faults) (r : Request) (db : DB) (t : Task)
    (hd : json.Decode r.body = .ok t) (he : f.exec = Option.none) :
    (createTaskHandler f ResponseWriter.fresh r db).2.tasks
      = db.tasks ++ [⟨max db.seq (maxRowid db.tasks) + 1, some t.Title,
          some (t.DueDate.Format time.Layout.RFC3339)⟩] ∧
    (createTaskHandler f ResponseWriter.fresh r db).2.log
      = db.log ++ [Stmt.insert t.Title (t.DueDate.Format time.Layout.RFC3339)] ∧
    (createTaskHandler f ResponseWriter.fresh r db).1.status = some 201 ∧
    (t.DueDate.offset.natAbs < 86400 →
      (createTaskHandler f ResponseWriter.fresh r db).1.body
        = [Chunk.json (json.Value.object [("title", json.Value.string t.Title),
            ("due_date", json.Value.string (t.DueDate.Format time.Layout.RFC3339Nano))])] ∧
      time.Parse time.Layout.RFC3339Nano (t.DueDate.Format time.Layout.RFC3339Nano)
        = (t.DueDate, Option.none)) ∧
    (86400 ≤ t.DueDate.offset.natAbs →
      (createTaskHandler f ResponseWriter.fresh r db).1.body = []) := by
  obtain ⟨hdb, hstatus, hbody⟩ := createTaskHandler_inserted f r db t hd he
  have hv := json.Decode_valid hd
  refine ⟨by rw [hdb], by rw [hdb], hstatus, ?_, ?_⟩
  · intro ho
    rw [hbody, json.MarshalTask_ok hv ho]
    exact ⟨rfl, time.Parse_Format_Nano _ hv ho _⟩
  · intro ho
    rw [hbody, json.MarshalTask_error hv ho]

theorem createTaskHandler_created_witness :
    json.Decode (Request.mk "POST" "/tasks" [] (Body.value (json.Value.object
      [("title", json.Value.string "a"),
        ("due_date", json.Value.string "2024-02-29T10:20:30.25+09:00")]))).body
      = .ok ⟨"a", ⟨2024, 2, 29, 10, 20, 30, 250000000, 32400⟩⟩ ∧
    Faults.none.exec = Option.none ∧
    (createTaskHandler Faults.none ResponseWriter.fresh
      (Request.mk "POST" "/tasks" [] (Body.value (json.Value.object
        [("title", json.Value.string "a"),
          ("due_date", json.Value.string "2024-02-29T10:20:30.25+09:00")])))
      ⟨[⟨1, some "a", some "2024-02-29T10:20:30+09:00"⟩], 1, []⟩).2.tasks
      = [⟨1, some "a", some "2024-02-29T10:20:30+09:00"⟩,
         ⟨2, some "a", some "2024-02-29T10:20:30+09:00"⟩] ∧
    (createTaskHandler Faults.none ResponseWriter.fresh
      (Request.mk "POST" "/tasks" [] (Body.value (json.Value.object
        [("title", json.Value.string "a"),
          ("due_date", json.Value.string "2024-02-29T10:20:30.25+09:00")])))
      ⟨[⟨1, some "a", some "2024-02-29T10:20:30+09:00"⟩], 1, []⟩).1.body
      = [Chunk.json (json.Value.object [("title", json.Value.string "a"),
          ("due_date", json.Value.string "2024-02-29T10:20:30.25+09:00")])] :=
  ⟨rfl, rfl, (createTaskHandler_created Faults.none
    (Request.mk "POST" "/tasks" [] (Body.value (json.Value.object
      [("title", json.Value.string "a"),
        ("due_date", json.Value.string "2024-02-29T10:20:30.25+09:00")])))
    ⟨[⟨1, some "a", some "2024-02-29T10:20:30+09:00"⟩], 1, []⟩
    ⟨"a", ⟨2024, 2, 29, 10, 20, 30, 250000000, 32400⟩⟩ rfl rfl).1,
   ((createTaskHandler_created Faults.none
    (Request.mk "POST" "/tasks" [] (Body.value (json.Value.object
      [("title", json.Value.string "a"),
        ("due_date", json.Value.string "2024-02-29T10:20:30.25+09:00")])))
    ⟨[⟨1, some "a", some "2024-02-29T10:20:30+09:00"⟩], 1, []⟩
    ⟨"a", ⟨2024, 2, 29, 10, 20, 30, 250000000, 32400⟩⟩ rfl rfl).2.2.2.1 (by decide)).1⟩

end main

namespace main

open http sql

/-- C7 (refuted as stated): the one row `(a, 2024-01-01T00:00:00+24:00)` scans
and its `due_date` parses, but the task cannot be marshalled; the handler
writes nothing, so the answer is HTTP 200 with an empty body and no task for
the stored row. -/
theorem list_zone_hour_24_empty_body :
    (Row.mk 1 (some "a") (some "2024-01-01T00:00:00+24:00")).Scan
      = .ok ("a", "2024-01-01T00:00:00+24:00") ∧
    time.Parse time.Layout.RFC3339 "2024-01-01T00:00:00+24:00"
      = (⟨2024, 1, 1, 0, 0, 0, 0, 86400⟩, Option.none) ∧
    listTasksLoop [⟨1, some "a", some "2024-01-01T00:00:00+24:00"⟩] Slice.nil
      = .ok (Slice.mk [⟨"a", ⟨2024, 1, 1, 0, 0, 0, 0, 86400⟩⟩]) ∧
    (listTasksHandler Faults.none ResponseWriter.fresh
      (Request.mk "GET" "/tasks/list" [] (Body.syntaxError "EOF"))
      ⟨[⟨1, some "a", some "2024-01-01T00:00:00+24:00"⟩], 1, []⟩).1.body = [] ∧
    (listTasksHandler Faults.none ResponseWriter.fresh
      (Request.mk "GET" "/tasks/list" [] (Body.syntaxError "EOF"))
      ⟨[⟨1, some "a", some "2024-01-01T00:00:00+24:00"⟩], 1, []⟩).1.finishRequest.status
      = some 200 :=
  ⟨rfl, rfl, rfl, rfl, rfl⟩

/-- C7 (amended): when the query succeeds, the iteration delivers every row
and every row scans, `listTasksHandler` answers HTTP 200.  The task list it
builds has one task per stored row, in order: each task has its row's title,
and its due date is what `time.Parse` returns for the row's `due_date` text,
which is the zero timestamp whenever `time.Parse` reports an error; no parse
error reaches the response.  When every listed due date has a zone offset
below 24 hours, the body is one JSON document: `null` for no rows, and
otherwise the array with, for each row in order, the object of its title and
the `RFC3339Nano` text of its due date.  When some listed due date has a zone
offset of 24 hours or more, the body is empty. -/
theorem listTasksHandler_rows (f : Faults) (r : Request) (db : DB)
    (hq : f.query = Option.none) (hn : f.next = Option.none)
    (h : ∀ row ∈ db.tasks, row.title ≠ Option.none ∧ row.due_date ≠ Option.none) :
    (∃ tasks : Slice Task,
      listTasksLoop db.tasks Slice.nil = .ok tasks ∧
      tasks.toList = db.tasks.map (fun row =>
        (⟨row.title.getD "", (time.Parse time.Layout.RFC3339 (row.due_date.getD "")).1⟩ : Task))) ∧
    (∀ row ∈ db.tasks, (time.Parse time.Layout.RFC3339 (row.due_date.getD "")).2 ≠ Option.none →
      (time.Parse time.Layout.RFC3339 (row.due_date.getD "")).1 = time.Time.zero) ∧
    (listTasksHandler f ResponseWriter.fresh r db).1.finishRequest.status = some 200 ∧
    ((∀ row ∈ db.tasks,
        (time.Parse time.Layout.RFC3339 (row.due_date.getD "")).1.offset.natAbs < 86400) →
      (listTasksHandler f ResponseWriter.fresh r db).1.status = some 200 ∧
      (listTasksHandler f ResponseWriter.fresh r db).1.body =
        [Chunk.json
          (match db.tasks with
            | [] => json.Value.null
            | _ :: _ => json.Value.array (db.tasks.map (fun row =>
                json.Value.object [("title", json.Value.string (row.title.getD "")),
                  ("due_date", json.Value.string
                    ((time.Parse time.Layout.RFC3339 (row.due_date.getD "")).1.Format
                      time.Layout.RFC3339Nano))])))]) ∧
    ((∃ row ∈ db.tasks,
        86400 ≤ (time.Parse time.Layout.RFC3339 (row.due_date.getD "")).1.offset.natAbs) →
      (listTasksHandler f ResponseWriter.fresh r db).1.body = []) := by
  refine ⟨⟨_, listTasksLoop_ok _ h _, ?_⟩, ?_, ?_, ?_, ?_⟩
  · rw [toList_foldl_append]
    rfl
  · intro row _
    exact time.Parse_error _ _
  · rw [listTasksHandler_scanned f r db hq hn h]
    cases json.MarshalTasks ((db.tasks.map rowTask).foldl Slice.append Slice.nil) <;> rfl
  · intro hm
    rw [listTasksHandler_ok f r db hq hn h hm]
    refine ⟨rfl, ?_⟩
    cases db.tasks <;> rfl
  · intro hm
    rw [listTasksHandler_unmarshalled f r db hq hn h hm]

theorem listTasksHandler_rows_witness :
    Faults.none.query = Option.none ∧ Faults.none.next = Option.none ∧
    listTasksLoop (DB.mk [⟨1, some "a", some "tomorrow"⟩,
        ⟨2, some "b", some "2024-02-29T1:20:30,5+09:00"⟩] 2 []).tasks Slice.nil
      = .ok (Slice.mk [⟨"a", time.Time.zero⟩, ⟨"b", ⟨2024, 2, 29, 1, 20, 30, 500000000, 32400⟩⟩]) ∧
    (listTasksHandler Faults.none ResponseWriter.fresh
      (Request.mk "GET" "/tasks/list" [] (Body.syntaxError "EOF"))
      (DB.mk [⟨1, some "a", some "tomorrow"⟩,
        ⟨2, some "b", some "2024-02-29T1:20:30,5+09:00"⟩] 2 [])).1.status = some 200 ∧
    (listTasksHandler Faults.none ResponseWriter.fresh
      (Request.mk "GET" "/tasks/list" [] (Body.syntaxError "EOF"))
      (DB.mk [⟨1, some "a", some "tomorrow"⟩,
        ⟨2, some "b", some "2024-02-29T1:20:30,5+09:00"⟩] 2 [])).1.body
      = [Chunk.json (json.Value.array [
          json.Value.object [("title", json.Value.string "a"),
            ("due_date", json.Value.string "0001-01-01T00:00:00Z")],
          json.Value.object [("title", json.Value.string "b"),
            ("due_date", json.Value.string "2024-02-29T01:20:30.5+09:00")]])] :=
  ⟨rfl, rfl, rfl,
    ((listTasksHandler_rows Faults.none
      (Request.mk "GET" "/tasks/list" [] (Body.syntaxError "EOF"))
      (DB.mk [⟨1, some "a", some "tomorrow"⟩,
        ⟨2, some "b", some "2024-02-29T1:20:30,5+09:00"⟩] 2 [])
      rfl rfl (by decide)).2.2.2.1 (by decide)).1,
    ((listTasksHandler_rows Faults.none
      (Request.mk "GET" "/tasks/list" [] (Body.syntaxError "EOF"))
      (DB.mk [⟨1, some "a", some "tomorrow"⟩,
        ⟨2, some "b", some "2024-02-29T1:20:30,5+09:00"⟩] 2 [])
      rfl rfl (by decide)).2.2.2.1 (by decide)).2⟩

end main

namespace main

open http sql

/-- C9 (refuted as stated): one call of `createTaskHandler` with the
`due_date` zone `+24:60` reaches, from the empty table, a state whose row
holds the text `2024-01-01T00:00:00+25:00`; `time.Parse` refuses that text, so
`listTasksHandler` falls back to the zero timestamp for a row written by
`createTaskHandler`. -/
theorem reachable_zone_25_unparseable :
    Reachable (Route.createTaskHandler.run Faults.none ResponseWriter.fresh
      (Request.mk "POST" "/tasks" [] (Body.value (json.Value.object
        [("title", json.Value.string "x"),
          ("due_date", json.Value.string "2024-01-01T00:00:00+24:60")])))
      DB.empty).2 ∧
    (Route.createTaskHandler.run Faults.none ResponseWriter.fresh
      (Request.mk "POST" "/tasks" [] (Body.value (json.Value.object
        [("title", json.Value.string "x"),
          ("due_date", json.Value.string "2024-01-01T00:00:00+24:60")])))
      DB.empty).2.tasks = [⟨1, some "x", some "2024-01-01T00:00:00+25:00"⟩] ∧
    (time.Parse time.Layout.RFC3339 "2024-01-01T00:00:00+25:00").1 = time.Time.zero ∧
    (time.Parse time.Layout.RFC3339 "2024-01-01T00:00:00+25:00").2 ≠ Option.none ∧
    listTasksLoop [⟨1, some "x", some "2024-01-01T00:00:00+25:00"⟩] Slice.nil
      = .ok (Slice.mk [⟨"x", time.Time.zero⟩]) :=
  ⟨Reachable.call Route.createTaskHandler Faults.none ResponseWriter.fresh _ DB.empty Reachable.init,
    rfl, rfl, by decide, rfl⟩

/-- C9 (amended): in every table state that calls of the three handlers can
reach from the empty table, every row holds a `due_date` text of one of two
kinds.  Either `time.Parse` accepts it without error and formatting the
parsed time with the `RFC3339` layout gives the same text back; or the text
ends in the zone `+25:00` or `-25:00` (written for a decoded zone `24:60`),
`time.Parse` refuses it, and `listTasksHandler` takes the zero timestamp. -/
theorem reachable_due_date_texts (db : DB) (h : Reachable db) :
    ∀ row ∈ db.tasks, ∃ text : String,
      row.due_date = some text ∧
      ((∃ t : time.Time, time.Parse time.Layout.RFC3339 text = (t, Option.none) ∧
          t.Format time.Layout.RFC3339 = text) ∨
        ((text.data.drop 19 = ['+', '2', '5', ':', '0', '0'] ∨
            text.data.drop 19 = ['-', '2', '5', ':', '0', '0']) ∧
          (time.Parse time.Layout.RFC3339 text).2 ≠ Option.none ∧
          (time.Parse time.Layout.RFC3339 text).1 = time.Time.zero)) := by
  induction h with
  | init => intro row hrow; cases hrow
  | call route f w r db _ ih =>
    have key : (route.run f w r db).2.tasks = db.tasks ∨
        ∃ (t : Task) (id : Nat), t.DueDate.Valid ∧ (route.run f w r db).2.tasks
          = db.tasks ++ [⟨id, some t.Title, some (t.DueDate.Format time.Layout.RFC3339)⟩] := by
      cases route with
      | helloWorldHandler => exact Or.inl rfl
      | createTaskHandler => exact createTaskHandler_tasks f w r db
      | listTasksHandler => exact Or.inl (listTasksHandler_tasks f w r db)
    rcases key with e | ⟨t, id, hv, e⟩
    · rw [e]; exact ih
    · rw [e]
      intro row hrow
      rcases List.mem_append.1 hrow with hrow | hrow
      · exact ih row hrow
      · rw [List.mem_singleton] at hrow
        subst hrow
        refine ⟨_, rfl, ?_⟩
        by_cases ho : t.DueDate.offset.natAbs < 90000
        · exact Or.inl ⟨{ t.DueDate with nsec := 0 }, time.Parse_Format _ hv ho _, rfl⟩
        · obtain ⟨h1, h2, h3⟩ := time.Parse_Format_25 _ hv ho time.Layout.RFC3339
          exact Or.inr ⟨h3, h2, h1⟩

theorem reachable_due_date_texts_witness :
    Reachable (Route.createTaskHandler.run Faults.none ResponseWriter.fresh
      (Request.mk "POST" "/tasks" [] (Body.value (json.Value.object
        [("title", json.Value.string "x"),
          ("due_date", json.Value.string "2024-01-01T0:00:00,5-23:60")])))
      DB.empty).2 ∧
    (⟨1, some "x", some "2024-01-01T00:00:00-24:00"⟩ : Row) ∈
      (Route.createTaskHandler.run Faults.none ResponseWriter.fresh
        (Request.mk "POST" "/tasks" [] (Body.value (json.Value.object
          [("title", json.Value.string "x"),
            ("due_date", json.Value.string "2024-01-01T0:00:00,5-23:60")])))
        DB.empty).2.tasks ∧
    ∃ text : String,
      (⟨1, some "x", some "2024-01-01T00:00:00-24:00"⟩ : Row).due_date = some text ∧
      ((∃ t : time.Time, time.Parse time.Layout.RFC3339 text = (t, Option.none) ∧
          t.Format time.Layout.RFC3339 = text) ∨
        ((text.data.drop 19 = ['+', '2', '5', ':', '0', '0'] ∨
            text.data.drop 19 = ['-', '2', '5', ':', '0', '0']) ∧
          (time.Parse time.Layout.RFC3339 text).2 ≠ Option.none ∧
          (time.Parse time.Layout.RFC3339 text).1 = time.Time.zero)) :=
  ⟨Reachable.call Route.createTaskHandler Faults.none ResponseWriter.fresh _ DB.empty Reachable.init,
    List.mem_singleton.2 rfl,
    reachable_due_date_texts _ (Reachable.call Route.createTaskHandler Faults.none
      ResponseWriter.fresh
      (Request.mk "POST" "/tasks" [] (Body.value (json.Value.object
        [("title", json.Value.string "x"),
          ("due_date", json.Value.string "2024-01-01T0:00:00,5-23:60")])))
      DB.empty Reachable.init) ⟨1, some "x", some "2024-01-01T00:00:00-24:00"⟩
      (List.mem_singleton.2 rfl)⟩

/-- C2 (refuted as stated): a body whose `due_date` carries a fractional
second decodes and is inserted, but the stored `RFC3339` text has no
fractional second, so the listed task has a different due date; and a body
whose `due_date` has the zone `+24:60` is stored with the zone `+25:00`, which
does not parse, so the listed task has the zero timestamp. -/
theorem create_then_list_drops_fraction :
    json.Decode (Body.value (json.Value.object [("title", json.Value.string "x"),
      ("due_date", json.Value.string "2024-01-01T00:00:00.5Z")]))
      = .ok ⟨"x", ⟨2024, 1, 1, 0, 0, 0, 500000000, 0⟩⟩ ∧
    (createTaskHandler Faults.none ResponseWriter.fresh
      (Request.mk "POST" "/tasks" [] (Body.value (json.Value.object [("title", json.Value.string "x"),
        ("due_date", json.Value.string "2024-01-01T00:00:00.5Z")]))) DB.empty).1.status = some 201 ∧
    (createTaskHandler Faults.none ResponseWriter.fresh
      (Request.mk "POST" "/tasks" [] (Body.value (json.Value.object [("title", json.Value.string "x"),
        ("due_date", json.Value.string "2024-01-01T00:00:00.5Z")]))) DB.empty).2.tasks
      = [⟨1, some "x", some "2024-01-01T00:00:00Z"⟩] ∧
    listTasksLoop (createTaskHandler Faults.none ResponseWriter.fresh
      (Request.mk "POST" "/tasks" [] (Body.value (json.Value.object [("title", json.Value.string "x"),
        ("due_date", json.Value.string "2024-01-01T00:00:00.5Z")]))) DB.empty).2.tasks Slice.nil
      = .ok (Slice.mk [⟨"x", ⟨2024, 1, 1, 0, 0, 0, 0, 0⟩⟩]) ∧
    (listTasksHandler Faults.none ResponseWriter.fresh (Request.mk "GET" "/tasks/list" [] (Body.syntaxError "EOF"))
      (createTaskHandler Faults.none ResponseWriter.fresh
        (Request.mk "POST" "/tasks" [] (Body.value (json.Value.object [("title", json.Value.string "x"),
          ("due_date", json.Value.string "2024-01-01T00:00:00.5Z")]))) DB.empty).2).1.body
      = [Chunk.json (json.Value.array [json.Value.object
          [("title", json.Value.string "x"), ("due_date", json.Value.string "2024-01-01T00:00:00Z")]])] ∧
    (⟨2024, 1, 1, 0, 0, 0, 0, 0⟩ : time.Time) ≠ ⟨2024, 1, 1, 0, 0, 0, 500000000, 0⟩ ∧
    json.Decode (Body.value (json.Value.object [("title", json.Value.string "y"),
      ("due_date", json.Value.string "2024-01-01T00:00:00+24:60")]))
      = .ok ⟨"y", ⟨2024, 1, 1, 0, 0, 0, 0, 90000⟩⟩ ∧
    (listTasksHandler Faults.none ResponseWriter.fresh (Request.mk "GET" "/tasks/list" [] (Body.syntaxError "EOF"))
      (createTaskHandler Faults.none ResponseWriter.fresh
        (Request.mk "POST" "/tasks" [] (Body.value (json.Value.object [("title", json.Value.string "y"),
          ("due_date", json.Value.string "2024-01-01T00:00:00+24:60")]))) DB.empty).2).1.body
      = [Chunk.json (json.Value.array [json.Value.object
          [("title", json.Value.string "y"), ("due_date", json.Value.string "0001-01-01T00:00:00Z")]])] :=
  ⟨rfl, rfl, rfl, rfl, rfl, by decide, rfl, rfl⟩

end main

namespace main

open http sql

theorem listDoc_append (rows : List Row) (row : Row) :
    listDoc (rows ++ [row]) = json.Value.array
      (rows.map (fun x => json.taskDoc (rowTask x)) ++ [json.taskDoc (rowTask row)]) := by
  cases rows with
  | nil => rfl
  | cons x xs =>
    show json.Value.array (((x :: xs) ++ [row]).map _) = _
    rw [List.map_append]
    rfl

/-- C2 (amended): when the request body decodes to a task `t` whose zone
offset is below 24 hours, the insert succeeds and the following list call
succeeds over earlier rows that all scan and whose due dates all have zone
offsets below 24 hours, `listTasksHandler` answers HTTP 200 with the JSON
array of the earlier rows followed by one object with the title of `t` and,
as due date, the due date of `t` without its fractional second: the stored
text parses to exactly that time.  The listed task equals `t` itself when the
due date of `t` has no fractional second. -/
theorem create_then_list_whole_seconds (f1 f2 : Faults) (r1 r2 : Request) (db : DB) (t : Task)
    (hd : json.Decode r1.body = .ok t) (he : f1.exec = Option.none)
    (ho : t.DueDate.offset.natAbs < 86400)
    (hq : f2.query = Option.none) (hn : f2.next = Option.none)
    (h : ∀ row ∈ db.tasks, row.title ≠ Option.none ∧ row.due_date ≠ Option.none)
    (hm : ∀ row ∈ db.tasks,
      (time.Parse time.Layout.RFC3339 (row.due_date.getD "")).1.offset.natAbs < 86400) :
    (listTasksHandler f2 ResponseWriter.fresh r2
      (createTaskHandler f1 ResponseWriter.fresh r1 db).2).1.status = some 200 ∧
    (listTasksHandler f2 ResponseWriter.fresh r2
      (createTaskHandler f1 ResponseWriter.fresh r1 db).2).1.body =
      [Chunk.json (json.Value.array
        (db.tasks.map (fun row =>
            json.Value.object [("title", json.Value.string (row.title.getD "")),
              ("due_date", json.Value.string
                ((time.Parse time.Layout.RFC3339 (row.due_date.getD "")).1.Format
                  time.Layout.RFC3339Nano))]) ++
          [json.Value.object [("title", json.Value.string t.Title),
            ("due_date", json.Value.string
              (({ t.DueDate with nsec := 0 } : time.Time).Format time.Layout.RFC3339Nano))]]))] ∧
    time.Parse time.Layout.RFC3339 (t.DueDate.Format time.Layout.RFC3339)
      = ({ t.DueDate with nsec := 0 }, Option.none) ∧
    (∃ tasks : Slice Task,
      listTasksLoop (createTaskHandler f1 ResponseWriter.fresh r1 db).2.tasks Slice.nil = .ok tasks ∧
      (⟨t.Title, { t.DueDate with nsec := 0 }⟩ : Task) ∈ tasks.toList ∧
      (t.DueDate.nsec = 0 → t ∈ tasks.toList)) := by
  have hv := json.Decode_valid hd
  have ho2 : t.DueDate.offset.natAbs < 90000 := by omega
  obtain ⟨hdb, -, -⟩ := createTaskHandler_inserted f1 r1 db t hd he
  have hrow := rowTask_inserted t (max db.seq (maxRowid db.tasks) + 1) hv ho2
  have htasks : (createTaskHandler f1 ResponseWriter.fresh r1 db).2.tasks
      = db.tasks ++ [⟨max db.seq (maxRowid db.tasks) + 1, some t.Title,
          some (t.DueDate.Format time.Layout.RFC3339)⟩] := by rw [hdb]
  have hs : ∀ row ∈ (createTaskHandler f1 ResponseWriter.fresh r1 db).2.tasks,
      row.title ≠ Option.none ∧ row.due_date ≠ Option.none := by
    rw [htasks]
    intro row hrow'
    rcases List.mem_append.1 hrow' with hrow' | hrow'
    · exact h row hrow'
    · rw [List.mem_singleton] at hrow'
      subst hrow'
      exact ⟨by simp, by simp⟩
  have hms : ∀ row ∈ (createTaskHandler f1 ResponseWriter.fresh r1 db).2.tasks,
      (rowTask row).DueDate.offset.natAbs < 86400 := by
    rw [htasks]
    intro row hrow'
    rcases List.mem_append.1 hrow' with hrow' | hrow'
    · exact hm row hrow'
    · rw [List.mem_singleton] at hrow'
      subst hrow'
      rw [hrow]
      exact ho
  have hmem : (⟨t.Title, { t.DueDate with nsec := 0 }⟩ : Task) ∈
      (createTaskHandler f1 ResponseWriter.fresh r1 db).2.tasks.map rowTask := by
    rw [htasks]
    simp only [List.map_append, List.map_cons, List.map_nil]
    rw [hrow]
    simp
  rw [listTasksHandler_ok f2 r2 _ hq hn hs hms]
  refine ⟨rfl, ?_, time.Parse_Format _ hv ho2 _, _, listTasksLoop_ok _ hs _, ?_, ?_⟩
  · show [Chunk.json (listDoc (createTaskHandler f1 ResponseWriter.fresh r1 db).2.tasks)] = _
    rw [htasks, listDoc_append, hrow]
    rfl
  · rw [toList_foldl_append]
    exact hmem
  · intro h0
    rw [toList_foldl_append]
    have e : (⟨t.Title, { t.DueDate with nsec := 0 }⟩ : Task) = t := by
      obtain ⟨title, ⟨y, mo, d, hh, mi, s, n, o⟩⟩ := t
      simp only at h0
      subst h0
      rfl
    rw [e] at hmem
    exact hmem

theorem create_then_list_whole_seconds_witness :
    json.Decode (Request.mk "POST" "/tasks" [] (Body.value (json.Value.object
      [("title", json.Value.string "x"),
        ("due_date", json.Value.string "2024-01-01T00:00:00.5-05:30")]))).body
      = .ok ⟨"x", ⟨2024, 1, 1, 0, 0, 0, 500000000, -19800⟩⟩ ∧
    Faults.none.exec = Option.none ∧ Faults.none.query = Option.none ∧
    Faults.none.next = Option.none ∧
    (listTasksHandler Faults.none ResponseWriter.fresh
      (Request.mk "GET" "/tasks/list" [] (Body.syntaxError "EOF"))
      (createTaskHandler Faults.none ResponseWriter.fresh
        (Request.mk "POST" "/tasks" [] (Body.value (json.Value.object
          [("title", json.Value.string "x"),
            ("due_date", json.Value.string "2024-01-01T00:00:00.5-05:30")])))
        ⟨[⟨1, some "w", some "2023-12-31T23:59:59Z"⟩], 1, []⟩).2).1.body
      = [Chunk.json (json.Value.array [
          json.Value.object [("title", json.Value.string "w"),
            ("due_date", json.Value.string "2023-12-31T23:59:59Z")],
          json.Value.object [("title", json.Value.string "x"),
            ("due_date", json.Value.string "2024-01-01T00:00:00-05:30")]])] :=
  ⟨rfl, rfl, rfl, rfl, (create_then_list_whole_seconds Faults.none Faults.none
    (Request.mk "POST" "/tasks" [] (Body.value (json.Value.object
      [("title", json.Value.string "x"),
        ("due_date", json.Value.string "2024-01-01T00:00:00.5-05:30")])))
    (Request.mk "GET" "/tasks/list" [] (Body.syntaxError "EOF"))
    ⟨[⟨1, some "w", some "2023-12-31T23:59:59Z"⟩], 1, []⟩
    ⟨"x", ⟨2024, 1, 1, 0, 0, 0, 500000000, -19800⟩⟩ rfl rfl (by decide) rfl rfl
    (by decide) (by decide)).2.1⟩

end main
